import Mathlib

/-!
# Process management core of the OS/161 teaching kernel

A shallow embedding of `kern/proc/proc.c` and `kern/syscall/proc_syscalls.c`.

* Process records live on a heap; a pointer is the address of a heap cell.
  `kmalloc` hands out the next unused address, `kfree` empties the cell, and a
  dereference of `NULL` or of an emptied cell is a `Fault` (the kernel dies).
* A `procarray` is a list of nullable pointers.
* Code that can hit a `KASSERT` or a `panic` returns `Except Fault _`.
* Outcomes of external collaborators (allocator, VM, file table, thread
  creation, copyout) are supplied by an environment record.
* Locks, spinlocks and the thread array carry no state in this sequential
  embedding; `DEBUG` lines are compiled out (`dbflags = 0`).
* `p_pid` and the tally are machine words in C.  Both count records that are
  simultaneously resident in a 32-bit kernel address space, so neither can
  wrap; they are natural numbers here.
-/

namespace OS161

/-! ## Data model -/

/-- Address of a heap-allocated process record. -/
abbrev Ptr := Nat

/-- A `struct procarray`: a resizable array of `struct proc *`. -/
abbrev ProcArray := List (Option Ptr)

/-- Ways in which the kernel stops instead of returning. -/
inductive Fault where
  /-- dereference of `NULL` or of a freed record -/
  | badPointer
  /-- the index assertion inside `array_get`, `array_set` or `array_remove` -/
  | arrayIndex
  /-- the assertion `proc != NULL` of `proc_destroy` -/
  | assertProcNonNull
  /-- the assertion `proc != kproc` of `proc_destroy` -/
  | assertNotKproc
  /-- the assertion `temp != NULL` of `proc_destroy` -/
  | assertChildNonNull
  /-- the assertion `num_processes > 0` of `proc_destroy` -/
  | assertNumProcesses
  /-- the assertion `p->p_addrspace != NULL` of `sys__exit` -/
  | assertAddrspace
  /-- the assertion `child != NULL` of `sys_waitpid` -/
  | assertChildFound
  /-- the assertion `child_proc->p_pid > 0` of `sys_fork` -/
  | assertPidPositive
  /-- a call of `panic` -/
  | panicked
  deriving DecidableEq, Repr

/-- Error numbers returned by the system calls.  The values of `kern/errno.h` are not among the
sources and stay symbolic. -/
inductive Errno where
  | EINVAL
  | ECHILD
  | ENOMEM
  /-- a non-zero result handed back by a collaborator -/
  | collaborator (code : Nat)
  deriving DecidableEq, Repr

/-- The fields of `struct proc` that the process core reads or writes.  The thread array, the
spinlock and the wait lock and condition variable carry no state here; the name is kept as a
value, its buffer is not tracked. -/
structure Proc where
  p_name : String
  p_pid : Nat
  p_addrspace : Option Nat
  p_cwd : Option Nat
  p_filetable : Option Nat
  p_parent : Option Ptr
  p_children : ProcArray
  p_exitstatus : Int
  p_exitable : Bool
  deriving DecidableEq, Repr

/-- The globals of `proc.c` together with the heap of process records. -/
structure Kernel where
  heap : List (Option Proc)
  proc_table : ProcArray
  kproc : Option Ptr
  num_processes : Nat
  no_proc_sem : Nat
  deriving DecidableEq, Repr

/-- Read the record a pointer refers to. -/
def Kernel.deref (k : Kernel) (p : Ptr) : Except Fault Proc :=
  match k.heap[p]? with
  | some (some r) => .ok r
  | _ => .error .badPointer

/-- Overwrite the record a pointer refers to. -/
def Kernel.store (k : Kernel) (p : Ptr) (r : Proc) : Kernel :=
  { k with heap := k.heap.set p (some r) }

/-- Release a record: `kfree(proc)`. -/
def Kernel.kfree (k : Kernel) (p : Ptr) : Kernel :=
  { k with heap := k.heap.set p none }

/-! ## The array primitives (`array.h`, instantiated for `struct proc`)

None of them is among the sources.  The registry table and the children set of sections 3 and
4.1 of the spec are arrays of slots addressed by index; an index is asserted to be in range. -/

/-- Modelled from the spec: `procarray_num` is not among the sources; the number of slots. -/
def procarray_num (a : ProcArray) : Nat := a.length

/-- Modelled from the spec: `procarray_get` is not among the sources; slot `i`, with the
assertion `i < num`. -/
def procarray_get (a : ProcArray) (i : Nat) : Except Fault (Option Ptr) :=
  match a[i]? with
  | some v => .ok v
  | none => .error .arrayIndex

/-- Modelled from the spec: `procarray_set` is not among the sources; overwrite slot `i`
(section 4.1, `unregister` clears a slot), with the assertion `i < num`. -/
def procarray_set (a : ProcArray) (i : Nat) (v : Option Ptr) : Except Fault ProcArray :=
  if i < a.length then .ok (a.set i v) else .error .arrayIndex

/-- Modelled from the spec: `procarray_remove` is not among the sources; delete slot `i` and
close the gap (removal from a children set), with the assertion `i < num`. -/
def procarray_remove (a : ProcArray) (i : Nat) : Except Fault ProcArray :=
  if i < a.length then .ok (a.eraseIdx i) else .error .arrayIndex

/-- Modelled from the spec: `procarray_add` is not among the sources; append at the end
(addition to a children set) and report the index used. -/
def procarray_add (a : ProcArray) (v : Option Ptr) : ProcArray × Nat :=
  (a ++ [v], a.length)

/-- Modelled from the spec: `procarray_setFirstAvail` is not among the sources.
Section 4.1 (`register`): the record goes into the first available slot,
reusing the index of a freed slot when there is one, and that index is
reported; with no freed slot the table grows by one. -/
def procarray_setFirstAvail : ProcArray → Option Ptr → ProcArray × Nat
  | [], v => ([v], 0)
  | none :: rest, v => (v :: rest, 0)
  | some q :: rest, v =>
    ((some q) :: (procarray_setFirstAvail rest v).1, (procarray_setFirstAvail rest v).2 + 1)

/-! ## `proc.c` -/

/-- Which of the allocations made by `proc_create` succeed. -/
structure CreateEnv where
  kmalloc_proc : Bool
  kstrdup_name : Bool
  lock_create_lk : Bool
  cv_create_cv : Bool
  deriving DecidableEq, Repr

/-- The function `proc_create(name)`: the new kernel state and the pointer returned (`none` for `NULL`). -/
def proc_create (k : Kernel) (name : String) (env : CreateEnv) :
    Except Fault (Kernel × Option Ptr) :=
  if env.kmalloc_proc = false then .ok (k, none)
  else if env.kstrdup_name = false then .ok (k, none)
  else
    let proc : Ptr := k.heap.length
    -- place new proc on process table
    let tbl := (procarray_setFirstAvail k.proc_table (some proc)).1
    let index := (procarray_setFirstAvail k.proc_table (some proc)).2
    let r : Proc :=
      { p_name := name, p_pid := index, p_addrspace := none, p_cwd := none,
        p_filetable := none, p_parent := none, p_children := [],
        p_exitstatus := 0, p_exitable := false }
    if env.lock_create_lk = false then .error .panicked
    else if env.cv_create_cv = false then .error .panicked
    else
      .ok ({ k with
              heap := k.heap ++ [some r]
              proc_table := tbl
              -- increment number of processes
              num_processes := if index ≠ 0 then k.num_processes + 1 else k.num_processes },
           some proc)

/-- First loop of `proc_destroy`: clear the parent reference of every child. -/
def detachChildren : ProcArray → Kernel → Except Fault Kernel
  | [], k => .ok k
  | none :: _, _ => .error .assertChildNonNull
  | some t :: rest, k =>
    match k.deref t with
    | .error f => .error f
    | .ok r => detachChildren rest (k.store t { r with p_parent := none })

/-- Second loop of `proc_destroy`, with `n` iterations left and loop variable `i`.  Each
iteration reads slot `i` of the global `proc_table` and stops when that record has the given
pid; the result is that `i`, which the caller then removes from the parent's children array. -/
def findSelfIndex (k : Kernel) (pid : Nat) : Nat → Nat → Except Fault (Option Nat)
  | 0, _ => .ok none
  | n + 1, i =>
    match procarray_get k.proc_table i with
    | .error f => .error f
    | .ok none => .error .badPointer
    | .ok (some c) =>
      match k.deref c with
      | .error f => .error f
      | .ok r => if r.p_pid = pid then .ok (some i) else findSelfIndex k pid n (i + 1)

/-- Detach the exiting record from its parent (`proc.c`, "detach this process from it's parent"). -/
def detachFromParent (k : Kernel) (pid : Nat) (pp : Ptr) : Except Fault Kernel :=
  match k.deref pp with
  | .error f => .error f
  | .ok pr =>
    match findSelfIndex k pid (procarray_num pr.p_children) 0 with
    | .error f => .error f
    | .ok none => .ok k
    | .ok (some i) =>
      match procarray_remove pr.p_children i with
      | .error f => .error f
      | .ok ch => .ok (k.store pp { pr with p_children := ch })

/-- Tail of `proc_destroy`: decrement the tally and signal `no_proc_sem` when it reaches zero. -/
def decrementTally (k : Kernel) : Except Fault Kernel :=
  if k.num_processes = 0 then .error .assertNumProcesses
  else
    .ok { k with
          num_processes := k.num_processes - 1
          no_proc_sem := if k.num_processes - 1 = 0 then k.no_proc_sem + 1 else k.no_proc_sem }

/-- The function `proc_destroy(proc)`.  Whether `proc` is the current process only selects how the
address space is detached; either way the field ends up `NULL`. -/
def proc_destroy (k : Kernel) (proc : Option Ptr) : Except Fault Kernel :=
  match proc with
  | none => .error .assertProcNonNull
  | some p =>
    if some p = k.kproc then .error .assertNotKproc
    else
      match k.deref p with
      | .error f => .error f
      | .ok r =>
        -- VFS fields, VM fields
        let k1 := k.store p { r with p_cwd := none, p_filetable := none, p_addrspace := none }
        -- detach all children from this process
        match detachChildren r.p_children k1 with
        | .error f => .error f
        | .ok k2 =>
          match k2.deref p with
          | .error f => .error f
          | .ok r2 =>
            match r2.p_parent with
            | some pp =>
              -- detach this process from its parent; the record stays in the table
              match detachFromParent k2 r2.p_pid pp with
              | .error f => .error f
              | .ok k3 => decrementTally k3
            | none =>
              -- delete this process from the process table
              match procarray_set k2.proc_table r2.p_pid none with
              | .error f => .error f
              | .ok tbl => decrementTally ({ k2 with proc_table := tbl }.kfree p)

/-- Which of the allocations made by `proc_bootstrap` succeed. -/
structure BootEnv where
  ptable_lk : Bool
  create : CreateEnv
  num_proc_lk : Bool
  no_proc_sem : Bool
  deriving DecidableEq, Repr

/-- Kernel globals before `proc_bootstrap` has run. -/
def Kernel.blank : Kernel :=
  { heap := [], proc_table := [], kproc := none, num_processes := 0, no_proc_sem := 0 }

/-- The function `proc_bootstrap()`. -/
def proc_bootstrap (env : BootEnv) : Except Fault Kernel :=
  if env.ptable_lk = false then .error .panicked
  else
    match proc_create { Kernel.blank with proc_table := [] } "[kernel]" env.create with
    | .error f => .error f
    | .ok (_, none) => .error .panicked
    | .ok (k, some kp) =>
      if env.num_proc_lk = false then .error .panicked
      else if env.no_proc_sem = false then .error .panicked
      else .ok { k with kproc := some kp, num_processes := 0, no_proc_sem := 0 }

/-- The function `proc_create_runprogram(name)`, called by the process `curproc`. -/
def proc_create_runprogram (k : Kernel) (curproc : Ptr) (name : String) (env : CreateEnv) :
    Except Fault (Kernel × Option Ptr) :=
  match proc_create k name env with
  | .error f => .error f
  | .ok (k1, none) => .ok (k1, none)
  | .ok (k1, some newproc) =>
    match k1.deref newproc, k1.deref curproc with
    | .ok r, .ok cur =>
      .ok (k1.store newproc
            { r with p_addrspace := none, p_cwd := if cur.p_cwd.isSome then cur.p_cwd else r.p_cwd },
           some newproc)
    | _, _ => .error .badPointer

/-- The function `proc_setas(newas)` called by `curproc`: swap in an address space, hand back the old one. -/
def proc_setas (k : Kernel) (curproc : Ptr) (newas : Option Nat) :
    Except Fault (Kernel × Option Nat) :=
  match k.deref curproc with
  | .error f => .error f
  | .ok r => .ok (k.store curproc { r with p_addrspace := newas }, r.p_addrspace)

/-- Loop of `proc_getProc`: `ret` is overwritten with every slot visited. -/
def getProc_loop (k : Kernel) (pid : Int) : ProcArray → Option Ptr → Except Fault (Option Ptr)
  | [], ret => .ok ret
  | none :: _, _ => .error .badPointer
  | some p :: rest, _ =>
    match k.deref p with
    | .error f => .error f
    | .ok r => if (r.p_pid : Int) = pid then .ok (some p) else getProc_loop k pid rest (some p)

/-- The function `proc_getProc(pid)`. -/
def proc_getProc (k : Kernel) (pid : Int) : Except Fault (Option Ptr) :=
  getProc_loop k pid k.proc_table none

/-- Outcomes of the collaborators called during `proc_fork` and `sys_fork`.  A result code of `0`
means success, as in C. -/
structure ForkEnv where
  create : CreateEnv
  /-- result of `filetable_copy` inside `proc_fork` -/
  filetable_copy_proc : Nat
  /-- handle of the file table produced there -/
  filetable_proc : Nat
  /-- whether `kmalloc(sizeof(struct addrspace))` succeeds -/
  kmalloc_as : Bool
  /-- whether `kmalloc(sizeof(struct trapframe))` succeeds -/
  kmalloc_tf : Bool
  /-- result of `as_copy` -/
  as_copy : Nat
  /-- handle of the address space produced by `as_copy` -/
  addrspace : Nat
  /-- result of `filetable_copy` inside `sys_fork` (ignored by the code) -/
  filetable_copy_sys : Nat
  /-- handle of the file table produced there -/
  filetable_sys : Nat
  /-- whether `procarray_add` on the children array succeeds -/
  procarray_add_ok : Bool
  /-- result of `thread_fork` -/
  thread_fork : Nat
  deriving DecidableEq, Repr

/-- The function `proc_fork(&ret)` called by `curproc`: new state, return value, and what was
written through `ret` (`none` when `ret` was left alone). -/
def proc_fork (k : Kernel) (curproc : Ptr) (env : ForkEnv) :
    Except Fault (Kernel × Option Errno × Option Ptr) :=
  match k.deref curproc with
  | .error f => .error f
  | .ok cur =>
    match proc_create k cur.p_name env.create with
    | .error f => .error f
    | .ok (k1, none) => .ok (k1, some .ENOMEM, none)
    | .ok (k1, some proc) =>
      match k1.deref proc with
      | .error f => .error f
      | .ok r =>
        if cur.p_filetable.isSome ∧ env.filetable_copy_proc ≠ 0 then
          match proc_destroy (k1.store proc { r with p_addrspace := none }) (some proc) with
          | .error f => .error f
          | .ok k2 => .ok (k2, some (.collaborator env.filetable_copy_proc), none)
        else
          .ok (k1.store proc
                { r with
                  p_filetable := if cur.p_filetable.isSome then some env.filetable_proc else r.p_filetable
                  p_cwd := if cur.p_cwd.isSome then cur.p_cwd else r.p_cwd },
               none, some proc)

/-! ## `proc_syscalls.c` -/

/-- The function `sys_getpid(&ret)` called by `curproc`: return value and the pid written. -/
def sys_getpid (k : Kernel) (curproc : Ptr) : Except Fault (Nat × Nat) :=
  match k.deref curproc with
  | .error f => .error f
  | .ok r => .ok (0, r.p_pid)

/-- The function `sys__exit(exitcode)` called by `curproc`; the state is the one in which the
calling thread ends.  The macro `_MKWAIT_EXIT` of `kern/wait.h` is a parameter. -/
def sys__exit (MKWAIT_EXIT : Int → Int) (k : Kernel) (curproc : Ptr) (exitcode : Int) :
    Except Fault Kernel :=
  match k.deref curproc with
  | .error f => .error f
  | .ok p =>
    if p.p_addrspace = none then .error .assertAddrspace
    else
      -- proc_setas(NULL), as_destroy(as), then the two exit fields
      proc_destroy
        (k.store curproc
          { p with p_addrspace := none, p_exitstatus := MKWAIT_EXIT exitcode, p_exitable := true })
        (some curproc)

/-- How a call of `sys_waitpid` ends. -/
inductive WaitOutcome where
  /-- the caller sleeps in `cv_wait` because the child is not exitable -/
  | blocked
  /-- the call returns `err` (`none` is `0`); `retval` and `status` are what was written through
  the two output locations (`none`: not written) -/
  | returned (err : Option Errno) (retval : Option Int) (status : Option Int)
  deriving DecidableEq, Repr

/-- The function `sys_waitpid(pid, status, options, &retval)` called by `curproc`; `copyout` is
the result of the copy to user space (`none` is `0`). -/
def sys_waitpid (k : Kernel) (curproc : Ptr) (pid : Int) (options : Int)
    (copyout : Option Errno) : Except Fault (Kernel × WaitOutcome) :=
  if options ≠ 0 then .ok (k, .returned (some .EINVAL) none none)
  else
    match proc_getProc k pid with
    | .error f => .error f
    | .ok none => .error .assertChildFound
    | .ok (some child) =>
      match k.deref child with
      | .error f => .error f
      | .ok c =>
        if some curproc ≠ k.kproc ∧ c.p_parent ≠ some curproc then
          .ok (k, .returned (some .ECHILD) none none)
        else if c.p_exitable = false then .ok (k, .blocked)
        else
          match copyout with
          | some e => .ok (k, .returned (some e) none none)
          | none => .ok (k, .returned none (some pid) (some c.p_exitstatus))

/-- The error exits of `sys_fork` once the child exists: `proc_destroy(child_proc); return e;`. -/
def forkFail (k : Kernel) (child : Ptr) (e : Errno) :
    Except Fault (Kernel × Option Errno × Option Nat) :=
  match proc_destroy k (some child) with
  | .error f => .error f
  | .ok k1 => .ok (k1, some e, none)

/-- Second half of `sys_fork`, from `child_proc->p_addrspace = child_as` on. -/
def forkLink (k : Kernel) (curproc child : Ptr) (env : ForkEnv) :
    Except Fault (Kernel × Option Errno × Option Nat) :=
  match k.deref child with
  | .error f => .error f
  | .ok c =>
    let k1 := k.store child
      { c with
        p_addrspace := some env.addrspace
        p_filetable := if env.filetable_copy_sys = 0 then some env.filetable_sys else c.p_filetable
        -- assign child processes parent as this process
        p_parent := some curproc }
    match k1.deref curproc with
    | .error f => .error f
    | .ok cur1 =>
      let k2 :=
        if env.procarray_add_ok then
          k1.store curproc { cur1 with p_children := (procarray_add cur1.p_children (some child)).1 }
        else k1
      if env.thread_fork ≠ 0 then forkFail k2 child .ENOMEM
      else .ok (k2, none, some c.p_pid)

/-- The function `sys_fork(tf, &retval)` called by `curproc`: new state, return value (`none` is
`0`) and the pid written through `retval`. -/
def sys_fork (k : Kernel) (curproc : Ptr) (env : ForkEnv) :
    Except Fault (Kernel × Option Errno × Option Nat) :=
  match k.deref curproc with
  | .error f => .error f
  | .ok cur =>
    let child_name := cur.p_name ++ "_c"
    -- create PCB for child
    match proc_fork k curproc env with
    | .error f => .error f
    | .ok (k1, _, none) => .ok (k1, some .ENOMEM, none)
    | .ok (k1, _, some child) =>
      match k1.deref child with
      | .error f => .error f
      | .ok c =>
        let k2 := k1.store child { c with p_name := child_name }
        if c.p_pid = 0 then .error .assertPidPositive
        else if env.kmalloc_as = false then forkFail k2 child .ENOMEM
        else if env.kmalloc_tf = false then forkFail k2 child .ENOMEM
        else if env.as_copy ≠ 0 then forkFail k2 child (.collaborator env.as_copy)
        else forkLink k2 curproc child env

/-! ## Reachable kernel states -/

/-- One successful call into the process core, made by any process with any arguments. -/
inductive Step (MKWAIT_EXIT : Int → Int) : Kernel → Kernel → Prop where
  | create {k k1 : Kernel} (name : String) (env : CreateEnv) (ret : Option Ptr) :
      proc_create k name env = .ok (k1, ret) → Step MKWAIT_EXIT k k1
  | create_runprogram {k k1 : Kernel} (curproc : Ptr) (name : String) (env : CreateEnv)
      (ret : Option Ptr) :
      proc_create_runprogram k curproc name env = .ok (k1, ret) → Step MKWAIT_EXIT k k1
  | setas {k k1 : Kernel} (curproc : Ptr) (newas old : Option Nat) :
      proc_setas k curproc newas = .ok (k1, old) → Step MKWAIT_EXIT k k1
  | destroy {k k1 : Kernel} (proc : Option Ptr) :
      proc_destroy k proc = .ok k1 → Step MKWAIT_EXIT k k1
  | fork {k k1 : Kernel} (curproc : Ptr) (env : ForkEnv) (err : Option Errno) (ret : Option Nat) :
      sys_fork k curproc env = .ok (k1, err, ret) → Step MKWAIT_EXIT k k1
  | exit {k k1 : Kernel} (curproc : Ptr) (exitcode : Int) :
      sys__exit MKWAIT_EXIT k curproc exitcode = .ok k1 → Step MKWAIT_EXIT k k1
  | waitpid {k k1 : Kernel} (curproc : Ptr) (pid options : Int) (copyout : Option Errno)
      (out : WaitOutcome) :
      sys_waitpid k curproc pid options copyout = .ok (k1, out) → Step MKWAIT_EXIT k k1

/-- States the kernel can be in: `proc_bootstrap` followed by any number of steps. -/
inductive Reachable (MKWAIT_EXIT : Int → Int) : Kernel → Prop where
  | boot {k : Kernel} (env : BootEnv) : proc_bootstrap env = .ok k → Reachable MKWAIT_EXIT k
  | step {k k1 : Kernel} : Reachable MKWAIT_EXIT k → Step MKWAIT_EXIT k k1 →
      Reachable MKWAIT_EXIT k1

/-- States reached from `proc_bootstrap` by calls of `proc_create` and `proc_destroy` alone. -/
inductive ReachableCD : Kernel → Prop where
  | boot {k : Kernel} (env : BootEnv) : proc_bootstrap env = .ok k → ReachableCD k
  | create {k k1 : Kernel} (name : String) (env : CreateEnv) (ret : Option Ptr) :
      ReachableCD k → proc_create k name env = .ok (k1, ret) → ReachableCD k1
  | destroy {k k1 : Kernel} (proc : Option Ptr) :
      ReachableCD k → proc_destroy k proc = .ok k1 → ReachableCD k1

/-- The records that exist (created, not yet freed) other than the kernel process. -/
def Kernel.userRecords (k : Kernel) : List Ptr :=
  (List.range k.heap.length).filter fun p => (k.heap[p]?).join.isSome && decide (some p ≠ k.kproc)

/-- What `proc_destroy` may do to a record that survives the call: the resource fields are
dropped, the parent reference may be cleared, children may leave the array. -/
def Proc.Shrunk (r r1 : Proc) : Prop :=
  r1.p_name = r.p_name ∧ r1.p_pid = r.p_pid ∧ r1.p_exitstatus = r.p_exitstatus ∧
  r1.p_exitable = r.p_exitable ∧ (r1.p_parent = r.p_parent ∨ r1.p_parent = none) ∧
  r1.p_children.Sublist r.p_children

/-- A heap cell is untouched or holds a shrunk record. -/
def CellShrunk (c c1 : Option (Option Proc)) : Prop :=
  c1 = c ∨ ∃ r r1, c = some (some r) ∧ c1 = some (some r1) ∧ r.Shrunk r1

/-- The globals are the same and every heap cell is untouched or shrunk. -/
def Kernel.Shrunk (k k1 : Kernel) : Prop :=
  k1.proc_table = k.proc_table ∧ k1.kproc = k.kproc ∧ k1.num_processes = k.num_processes ∧
  k1.no_proc_sem = k.no_proc_sem ∧ ∀ q : Nat, CellShrunk (k.heap[q]?) (k1.heap[q]?)

/-- Well-formedness of the registry, of the children arrays and of the kernel process. -/
structure WF (k : Kernel) : Prop where
  /-- an occupied slot `i` holds a live record whose pid is `i` -/
  reg : ∀ (i : Nat) (p : Nat), k.proc_table[i]? = some (some p) →
    ∃ r, k.deref p = .ok r ∧ r.p_pid = i
  /-- a live record sits in the slot named by its pid -/
  registered : ∀ (p : Nat) (r : Proc), k.deref p = .ok r →
    k.proc_table[r.p_pid]? = some (some p)
  /-- children arrays hold non-null pointers to records allocated after their parent -/
  above : ∀ (p : Nat) (r : Proc), k.deref p = .ok r →
    ∀ c ∈ r.p_children, ∃ q : Nat, c = some q ∧ p < q
  /-- the kernel process exists and has pid 0 -/
  kernel : ∃ (kp : Nat) (r : Proc), k.kproc = some kp ∧ k.deref kp = .ok r ∧ r.p_pid = 0

/-- The pid found in each registry slot (`none` for an empty slot). -/
def Kernel.registeredPids (k : Kernel) : List (Option Nat) :=
  k.proc_table.map fun e =>
    match e with
    | none => none
    | some p =>
      match k.deref p with
      | .ok r => some r.p_pid
      | .error _ => none

/-- The children array of the record at `p` (empty when there is no record). -/
def Kernel.childrenOf (k : Kernel) (p : Ptr) : ProcArray :=
  match k.deref p with
  | .ok r => r.p_children
  | .error _ => []

/-- The parent reference of the record at `p` (`none` also when there is no record). -/
def Kernel.parentOf (k : Kernel) (p : Ptr) : Option Ptr :=
  match k.deref p with
  | .ok r => r.p_parent
  | .error _ => none

/-- Invariant of the states reached by `proc_create` and `proc_destroy` alone: nothing there
links a record to a parent, and the tally counts the records other than the kernel process. -/
structure CDInv (k : Kernel) : Prop where
  wf : WF k
  flat : ∀ (p : Nat) (r : Proc), k.deref p = .ok r → r.p_parent = none ∧ r.p_children = []
  tally : k.num_processes = k.userRecords.length

/-! ## Concrete runs -/

/-- Every allocation of `proc_create` succeeds. -/
def createOk : CreateEnv :=
  { kmalloc_proc := true, kstrdup_name := true, lock_create_lk := true, cv_create_cv := true }

/-- Every allocation of `proc_bootstrap` succeeds. -/
def bootOk : BootEnv :=
  { ptable_lk := true, create := createOk, num_proc_lk := true, no_proc_sem := true }

/-- Every collaborator of `sys_fork` succeeds; `as` is the address space `as_copy` produces. -/
def forkOk (as : Nat) : ForkEnv :=
  { create := createOk, filetable_copy_proc := 0, filetable_proc := 7, kmalloc_as := true,
    kmalloc_tf := true, as_copy := 0, addrspace := as, filetable_copy_sys := 0,
    filetable_sys := 8, procarray_add_ok := true, thread_fork := 0 }

/-- As `forkOk`, except that `thread_fork` reports failure. -/
def forkThreadFails (as : Nat) : ForkEnv :=
  { forkOk as with thread_fork := 1 }

/-- A sample exit-status encoding for the concrete runs: the exit code above two tag bits that
are zero for a normal exit. -/
def waitEncoding (c : Int) : Int := c * 4

/-- The state held by a run, or the blank state if the run faulted. -/
def stateOf (x : Except Fault Kernel) : Kernel :=
  match x with
  | .ok k => k
  | .error _ => Kernel.blank

/-- Bootstrap only: the kernel process at address 0 with pid 0. -/
def kBoot : Kernel := stateOf (proc_bootstrap bootOk)

/-- The kernel process has created "init" (address 1, pid 1), which got an address space. -/
def kInit : Kernel :=
  stateOf ((proc_create_runprogram kBoot 0 "init" createOk).bind fun x =>
    (proc_setas x.1 1 (some 40)).bind fun y => .ok y.1)

/-- Process 1 has forked once: child at address 2 with pid 2. -/
def kForked : Kernel := stateOf ((sys_fork kInit 1 (forkOk 50)).bind fun x => .ok x.1)

/-- The child of `kForked` has called `_exit(7)`. -/
def kChildExited : Kernel := stateOf (sys__exit waitEncoding kForked 2 7)

/-- Process 1 has forked three times: children at addresses 2, 3, 4 with pids 2, 3, 4. -/
def kThree : Kernel :=
  stateOf ((sys_fork kForked 1 (forkOk 51)).bind fun x =>
    (sys_fork x.1 1 (forkOk 52)).bind fun y => .ok y.1)

/-- The first child of `kThree` has called `_exit(7)`. -/
def kThreeFirstExited : Kernel := stateOf (sys__exit waitEncoding kThree 2 7)

/-- Process 1 of `kThreeFirstExited` has then been destroyed. -/
def kThreeParentGone : Kernel := stateOf (proc_destroy kThreeFirstExited (some 1))

/-- In `kInit`, a fork by process 1 whose `thread_fork` fails. -/
def kForkFailed : Kernel :=
  stateOf ((sys_fork kInit 1 (forkThreadFails 50)).bind fun x => .ok x.1)

/-- From bootstrap: `proc_create` twice (pids 1 and 2), then `proc_destroy` of the first. -/
def kCreatedDestroyed : Kernel :=
  stateOf ((proc_create kBoot "a" createOk).bind fun x =>
    (proc_create x.1 "b" createOk).bind fun y => proc_destroy y.1 (some 1))

/-- As `forkOk`, except that `procarray_add` on the caller's children array fails. -/
def forkAddFails (as : Nat) : ForkEnv :=
  { forkOk as with procarray_add_ok := false }

/-- In `kInit`, a fork by process 1 whose `procarray_add` fails. -/
def kForkAddFailed : Kernel :=
  stateOf ((sys_fork kInit 1 (forkAddFails 50)).bind fun x => .ok x.1)

/-- The record and its name are allocated, `lock_create` fails. -/
def createLockFails : CreateEnv :=
  { createOk with lock_create_lk := false }

/-- The record, its name and the wait lock are allocated, `cv_create` fails. -/
def createCvFails : CreateEnv :=
  { createOk with cv_create_cv := false }

/-! ## The order of actions in `sys__exit` -/

/-- The statements of `sys__exit` as actions; the lock and the condition variable are the
caller's `p_waitpid_lk` and `p_waitpid_cv`. -/
inductive ExitAction where
  /-- the assertion `p->p_addrspace != NULL` -/
  | assert_addrspace
  | as_deactivate
  /-- the call `proc_setas(NULL)` -/
  | setas_null
  | as_destroy
  | remthread
  /-- the assignment `p->p_exitstatus = v` -/
  | write_exitstatus (v : Int)
  /-- the assignment `p->p_exitable = b` -/
  | write_exitable (b : Bool)
  | lock_acquire
  | cv_broadcast
  | lock_release
  /-- the call `proc_destroy(p)` -/
  | destroy_self
  | thread_exit
  deriving DecidableEq, Repr

/-- The actions of `sys__exit(exitcode)` in source order (lines 44 to 58). -/
def sys__exit_actions (MKWAIT_EXIT : Int → Int) (exitcode : Int) : List ExitAction :=
  [ .assert_addrspace,
    .as_deactivate,
    .setas_null,
    .as_destroy,
    .remthread,
    .write_exitstatus (MKWAIT_EXIT exitcode),
    .write_exitable true,
    .lock_acquire,
    .cv_broadcast,
    .lock_release,
    .destroy_self,
    .thread_exit ]

/-- Whether the wait lock is held after an action, given whether it was held before it. -/
def lockAfter (held : Bool) : ExitAction → Bool
  | .lock_acquire => true
  | .lock_release => false
  | _ => held

/-- Every action selected by `sel` happens while the wait lock is held; `held` says whether it
is held when the sequence starts. -/
def underLock (sel : ExitAction → Bool) : List ExitAction → Bool → Bool
  | [], _ => true
  | a :: rest, held => (!sel a || held) && underLock sel rest (lockAfter held a)

/-- A write of one of the two exit fields. -/
def isExitWrite : ExitAction → Bool
  | .write_exitstatus _ => true
  | .write_exitable _ => true
  | _ => false

/-- A write of `p_exitable`. -/
def isExitableWrite : ExitAction → Bool
  | .write_exitable _ => true
  | _ => false

/-- The broadcast on the wait condition. -/
def isBroadcast : ExitAction → Bool
  | .cv_broadcast => true
  | _ => false

/-- An exit-field write, a lock operation or the broadcast. -/
def isProtocolAction : ExitAction → Bool
  | .write_exitstatus _ => true
  | .write_exitable _ => true
  | .lock_acquire => true
  | .cv_broadcast => true
  | .lock_release => true
  | _ => false

/-! ## The name buffers of `sys_fork` -/

/-- Modelled from the spec: `strlen` is not among the sources; the number of bytes before the
terminator. -/
def strlen (s : String) : Nat := s.utf8ByteSize

/-- Modelled from the spec: `strcpy` is not among the sources; the number of bytes it writes to
the destination, the string and its terminator. -/
def strcpy_bytes (src : String) : Nat := strlen src + 1

/-- Modelled from the spec: `kstrdup` is not among the sources; the size of the buffer it
allocates, the length of the string plus one. -/
def kstrdup_capacity (s : String) : Nat := strlen s + 1

/-- Sizes of the two name buffers `sys_fork` writes, and how many bytes it writes to each. -/
structure NameBuffers where
  /-- size of `child_name = kmalloc(sizeof(char) * NAME_MAX)` -/
  child_name_capacity : Nat
  /-- bytes of `child_name` written by `strcpy(child_name, curproc->p_name)` and
  `strcat(child_name, "_c")` -/
  child_name_bytes : Nat
  /-- size of `child_proc->p_name`, which `proc_create(curproc->p_name)` got from `kstrdup` -/
  p_name_capacity : Nat
  /-- bytes written by `strcpy(child_proc->p_name, child_name)` -/
  p_name_bytes : Nat
  deriving DecidableEq, Repr

/-- Lines 113 to 124 of `sys_fork`, for a caller named `caller_name`.  The constant `NAME_MAX`
of `kern/limits.h` is a parameter. -/
def sys_fork_names (NAME_MAX : Nat) (caller_name : String) : NameBuffers :=
  let child_name := caller_name ++ "_c"
  { child_name_capacity := NAME_MAX
    child_name_bytes := strcpy_bytes child_name
    p_name_capacity := kstrdup_capacity caller_name
    p_name_bytes := strcpy_bytes child_name }

/-! ## Records created and not yet destroyed -/

/-- One successful call into the process core together with its effect on `live`, the list of
the records other than the kernel process that have been created and not yet passed to
`proc_destroy`.  A record is destroyed once: the argument of `proc_destroy` and the caller of
`sys__exit` are taken from `live`.  A fork that fails has destroyed the child it created; a fork
that returns 0 adds the record registered under the pid it returned. -/
inductive LiveStep (MKWAIT_EXIT : Int → Int) :
    Kernel → List Nat → Kernel → List Nat → Prop where
  | create {k k1 : Kernel} {live : List Nat} (name : String) (env : CreateEnv) (p : Nat) :
      proc_create k name env = .ok (k1, some p) → LiveStep MKWAIT_EXIT k live k1 (p :: live)
  | create_fails {k k1 : Kernel} {live : List Nat} (name : String) (env : CreateEnv) :
      proc_create k name env = .ok (k1, none) → LiveStep MKWAIT_EXIT k live k1 live
  | create_runprogram {k k1 : Kernel} {live : List Nat} (curproc : Nat) (name : String)
      (env : CreateEnv) (p : Nat) :
      proc_create_runprogram k curproc name env = .ok (k1, some p) →
      LiveStep MKWAIT_EXIT k live k1 (p :: live)
  | create_runprogram_fails {k k1 : Kernel} {live : List Nat} (curproc : Nat) (name : String)
      (env : CreateEnv) :
      proc_create_runprogram k curproc name env = .ok (k1, none) →
      LiveStep MKWAIT_EXIT k live k1 live
  | setas {k k1 : Kernel} {live : List Nat} (curproc : Nat) (newas old : Option Nat) :
      proc_setas k curproc newas = .ok (k1, old) → LiveStep MKWAIT_EXIT k live k1 live
  | destroy {k k1 : Kernel} {live : List Nat} (p : Nat) :
      p ∈ live → proc_destroy k (some p) = .ok k1 →
      LiveStep MKWAIT_EXIT k live k1 (live.erase p)
  | fork {k k1 : Kernel} {live : List Nat} (curproc : Nat) (env : ForkEnv) (pid child : Nat) :
      sys_fork k curproc env = .ok (k1, none, some pid) →
      k1.proc_table[pid]? = some (some child) →
      LiveStep MKWAIT_EXIT k live k1 (child :: live)
  | fork_fails {k k1 : Kernel} {live : List Nat} (curproc : Nat) (env : ForkEnv) (e : Errno)
      (ret : Option Nat) :
      sys_fork k curproc env = .ok (k1, some e, ret) → LiveStep MKWAIT_EXIT k live k1 live
  | exit {k k1 : Kernel} {live : List Nat} (curproc : Nat) (exitcode : Int) :
      curproc ∈ live → sys__exit MKWAIT_EXIT k curproc exitcode = .ok k1 →
      LiveStep MKWAIT_EXIT k live k1 (live.erase curproc)
  | waitpid {k k1 : Kernel} {live : List Nat} (curproc : Nat) (pid options : Int)
      (copyout : Option Errno) (out : WaitOutcome) :
      sys_waitpid k curproc pid options copyout = .ok (k1, out) →
      LiveStep MKWAIT_EXIT k live k1 live

/-- The reachable states, each with the list of records created and not yet destroyed. -/
inductive ReachableLive (MKWAIT_EXIT : Int → Int) : Kernel → List Nat → Prop where
  | boot {k : Kernel} (env : BootEnv) :
      proc_bootstrap env = .ok k → ReachableLive MKWAIT_EXIT k []
  | step {k k1 : Kernel} {live live1 : List Nat} :
      ReachableLive MKWAIT_EXIT k live → LiveStep MKWAIT_EXIT k live k1 live1 →
      ReachableLive MKWAIT_EXIT k1 live1

/-- From `k` to `k1` the kernel process is the same and every record that existed at an address
below `n` still exists. -/
def Kernel.KeepsBelow (n : Nat) (k k1 : Kernel) : Prop :=
  k1.kproc = k.kproc ∧
  ∀ q : Nat, q < n → ∀ r : Proc, k.deref q = .ok r → ∃ r1 : Proc, k1.deref q = .ok r1

/-- What the tally proof carries along a run: the registry is well formed, the tally is the
length of `live`, and `live` lists distinct existing records other than the kernel process. -/
structure LiveInv (k : Kernel) (live : List Nat) : Prop where
  wf : WF k
  tally : k.num_processes = live.length
  nodup : live.Nodup
  exist : ∀ p ∈ live, (∃ r : Proc, k.deref p = .ok r) ∧ some p ≠ k.kproc

/-! ## Basic facts about the heap -/

theorem deref_eq_ok {k : Kernel} {p : Nat} {r : Proc} :
    k.deref p = .ok r ↔ k.heap[p]? = some (some r) := by
  unfold Kernel.deref
  split
  · next r0 h => simp [h]
  · next h =>
    constructor
    · intro h1; cases h1
    · intro h1; exact absurd h1 (h r)

theorem deref_lt {k : Kernel} {p : Nat} {r : Proc} (h : k.deref p = .ok r) :
    (p : Nat) < k.heap.length := by
  rw [deref_eq_ok] at h
  exact (List.getElem?_eq_some.mp h).1

theorem heap_store_self {k : Kernel} {p : Nat} {r0 r : Proc} (h : k.deref p = .ok r0) :
    (k.store p r).heap[p]? = some (some r) := by
  have := deref_lt h
  simp [Kernel.store, this]

theorem heap_store_ne {k : Kernel} {p q : Nat} (r : Proc) (h : p ≠ q) :
    (k.store p r).heap[q]? = k.heap[q]? := by
  simp [Kernel.store, h]

theorem deref_store_self {k : Kernel} {p : Nat} {r0 r : Proc} (h : k.deref p = .ok r0) :
    (k.store p r).deref p = .ok r :=
  deref_eq_ok.mpr (heap_store_self h)

theorem deref_store_ne {k : Kernel} {p q : Nat} (r : Proc) (h : p ≠ q) :
    (k.store p r).deref q = k.deref q := by
  unfold Kernel.deref
  rw [heap_store_ne r h]

/-! ## What `proc_destroy` does to the heap -/

theorem proc_shrunk_refl (r : Proc) : r.Shrunk r :=
  ⟨rfl, rfl, rfl, rfl, Or.inl rfl, List.Sublist.refl _⟩

theorem proc_shrunk_trans {a b c : Proc} (h1 : a.Shrunk b) (h2 : b.Shrunk c) : a.Shrunk c := by
  obtain ⟨n1, p1, s1, e1, q1, c1⟩ := h1
  obtain ⟨n2, p2, s2, e2, q2, c2⟩ := h2
  refine ⟨n2.trans n1, p2.trans p1, s2.trans s1, e2.trans e1, ?_, c2.trans c1⟩
  rcases q2 with q2 | q2
  · rw [q2]; exact q1
  · exact Or.inr q2

theorem cell_shrunk_refl (c : Option (Option Proc)) : CellShrunk c c := Or.inl rfl

theorem cell_shrunk_trans {a b c : Option (Option Proc)} (h1 : CellShrunk a b)
    (h2 : CellShrunk b c) : CellShrunk a c := by
  rcases h1 with h1 | ⟨r, r1, ha, hb, hs⟩
  · rw [h1] at h2; exact h2
  · rcases h2 with h2 | ⟨r2, r3, hb2, hc, hs2⟩
    · rw [h2]; exact Or.inr ⟨r, r1, ha, hb, hs⟩
    · rw [hb] at hb2
      have : r1 = r2 := by injection hb2 with h; injection h
      subst this
      exact Or.inr ⟨r, r3, ha, hc, proc_shrunk_trans hs hs2⟩

theorem kernel_shrunk_refl (k : Kernel) : k.Shrunk k :=
  ⟨rfl, rfl, rfl, rfl, fun _ => cell_shrunk_refl _⟩

theorem kernel_shrunk_trans {a b c : Kernel} (h1 : a.Shrunk b) (h2 : b.Shrunk c) : a.Shrunk c := by
  obtain ⟨t1, k1, n1, s1, c1⟩ := h1
  obtain ⟨t2, k2, n2, s2, c2⟩ := h2
  exact ⟨t2.trans t1, k2.trans k1, n2.trans n1, s2.trans s1, fun q => cell_shrunk_trans (c1 q) (c2 q)⟩

theorem store_shrunk {k : Kernel} {p : Nat} {r r1 : Proc} (h : k.deref p = .ok r)
    (hs : r.Shrunk r1) : k.Shrunk (k.store p r1) := by
  refine ⟨rfl, rfl, rfl, rfl, fun q => ?_⟩
  by_cases hq : p = q
  · subst hq
    exact Or.inr ⟨r, r1, deref_eq_ok.mp h, heap_store_self h, hs⟩
  · exact Or.inl (heap_store_ne r1 hq)

theorem detachChildren_shrunk (l : ProcArray) :
    ∀ {k k1 : Kernel}, detachChildren l k = .ok k1 → k.Shrunk k1 := by
  induction l with
  | nil =>
    intro k k1 h
    simp only [detachChildren] at h
    cases h
    exact kernel_shrunk_refl k
  | cons a rest ih =>
    intro k k1 h
    cases a with
    | none => simp [detachChildren] at h
    | some t =>
      simp only [detachChildren] at h
      cases hd : k.deref t with
      | error f => rw [hd] at h; cases h
      | ok r =>
        rw [hd] at h
        have hs : r.Shrunk { r with p_parent := none } :=
          ⟨rfl, rfl, rfl, rfl, Or.inr rfl, List.Sublist.refl _⟩
        exact kernel_shrunk_trans (store_shrunk hd hs) (ih h)

theorem detachChildren_untouched (l : ProcArray) (p : Nat) (hp : some p ∉ l) :
    ∀ {k k1 : Kernel}, detachChildren l k = .ok k1 → k1.heap[p]? = k.heap[p]? := by
  induction l with
  | nil =>
    intro k k1 h
    simp only [detachChildren] at h
    cases h
    rfl
  | cons a rest ih =>
    intro k k1 h
    cases a with
    | none => simp [detachChildren] at h
    | some t =>
      simp only [detachChildren] at h
      cases hd : k.deref t with
      | error f => rw [hd] at h; cases h
      | ok r =>
        rw [hd] at h
        have hne : t ≠ p := by
          intro e
          subst e
          exact hp (List.mem_cons_self _ _)
        have hrest : some p ∉ rest := fun hm => hp (List.mem_cons_of_mem _ hm)
        rw [ih hrest h]
        exact heap_store_ne _ hne

theorem detachFromParent_shrunk {k k1 : Kernel} {pid : Nat} {pp : Nat}
    (h : detachFromParent k pid pp = .ok k1) : k.Shrunk k1 := by
  unfold detachFromParent at h
  cases hd : k.deref pp with
  | error f => rw [hd] at h; cases h
  | ok pr =>
    rw [hd] at h
    simp only at h
    cases hf : findSelfIndex k pid (procarray_num pr.p_children) 0 with
    | error f => rw [hf] at h; cases h
    | ok found =>
      rw [hf] at h
      cases found with
      | none =>
        simp only at h
        cases h
        exact kernel_shrunk_refl k
      | some i =>
        simp only at h
        unfold procarray_remove at h
        by_cases hi : i < pr.p_children.length
        · simp only [hi, if_true] at h
          cases h
          exact store_shrunk hd
            ⟨rfl, rfl, rfl, rfl, Or.inl rfl, List.eraseIdx_sublist _ _⟩
        · simp only [hi, if_false] at h
          cases h

theorem detachFromParent_untouched {k k1 : Kernel} {pid : Nat} {pp p : Nat} (hne : pp ≠ p)
    (h : detachFromParent k pid pp = .ok k1) : k1.heap[p]? = k.heap[p]? := by
  unfold detachFromParent at h
  cases hd : k.deref pp with
  | error f => rw [hd] at h; cases h
  | ok pr =>
    rw [hd] at h
    simp only at h
    cases hf : findSelfIndex k pid (procarray_num pr.p_children) 0 with
    | error f => rw [hf] at h; cases h
    | ok found =>
      rw [hf] at h
      cases found with
      | none =>
        simp only at h
        cases h
        rfl
      | some i =>
        simp only at h
        cases hr : procarray_remove pr.p_children i with
        | error f => rw [hr] at h; cases h
        | ok ch =>
          rw [hr] at h
          simp only at h
          cases h
          exact heap_store_ne _ hne

theorem shrunk_deref {k km : Kernel} {p : Nat} {r : Proc} (hs : k.Shrunk km)
    (h : k.deref p = .ok r) : ∃ r1, km.deref p = .ok r1 ∧ r.Shrunk r1 := by
  have hc := hs.2.2.2.2 p
  rw [deref_eq_ok] at h
  rcases hc with hc | ⟨a, b, ha, hb, hab⟩
  · exact ⟨r, deref_eq_ok.mpr (hc.trans h), proc_shrunk_refl r⟩
  · rw [h] at ha
    have : r = a := by injection ha with e; injection e
    subst this
    exact ⟨b, deref_eq_ok.mpr hb, hab⟩

theorem shrunk_deref_back {k km : Kernel} {p : Nat} {r1 : Proc} (hs : k.Shrunk km)
    (h : km.deref p = .ok r1) : ∃ r, k.deref p = .ok r ∧ r.Shrunk r1 := by
  have hc := hs.2.2.2.2 p
  rw [deref_eq_ok] at h
  rcases hc with hc | ⟨a, b, ha, hb, hab⟩
  · exact ⟨r1, deref_eq_ok.mpr (hc.symm.trans h), proc_shrunk_refl r1⟩
  · rw [h] at hb
    have : r1 = b := by injection hb with e; injection e
    subst this
    exact ⟨a, deref_eq_ok.mpr ha, hab⟩

theorem decrementTally_ok {k k1 : Kernel} (h : decrementTally k = .ok k1) :
    0 < k.num_processes ∧ k1.num_processes = k.num_processes - 1 ∧ k1.heap = k.heap ∧
    k1.proc_table = k.proc_table ∧ k1.kproc = k.kproc := by
  unfold decrementTally at h
  by_cases h0 : k.num_processes = 0
  · simp [h0] at h
  · simp only [h0, if_false] at h
    cases h
    exact ⟨Nat.pos_of_ne_zero h0, rfl, rfl, rfl, rfl⟩

/-- Everything a successful `proc_destroy` does.  `par` is the parent reference the code reads
after detaching the children; `km` is the state just before the record is unregistered and the
tally is decremented. -/
theorem proc_destroy_effect {k k1 : Kernel} {p : Nat} (h : proc_destroy k (some p) = .ok k1) :
    ∃ (r : Proc) (km : Kernel) (par : Option Ptr),
      some p ≠ k.kproc ∧ k.deref p = .ok r ∧ k.Shrunk km ∧
      (some p ∉ r.p_children → par = r.p_parent) ∧
      k1.kproc = k.kproc ∧ 0 < k.num_processes ∧ k1.num_processes = k.num_processes - 1 ∧
      ((par ≠ none ∧ k1.heap = km.heap ∧ k1.proc_table = k.proc_table) ∨
       (par = none ∧ r.p_pid < k.proc_table.length ∧
        k1.proc_table = k.proc_table.set r.p_pid none ∧ k1.heap = km.heap.set p none)) := by
  unfold proc_destroy at h
  simp only at h
  by_cases hk : some p = k.kproc
  · simp [hk] at h
  · simp only [hk, if_false] at h
    cases hd : k.deref p with
    | error f => rw [hd] at h; cases h
    | ok r =>
      rw [hd] at h
      simp only at h
      have hs1 : k.Shrunk
          (k.store p { r with p_cwd := none, p_filetable := none, p_addrspace := none }) :=
        store_shrunk hd ⟨rfl, rfl, rfl, rfl, Or.inl rfl, List.Sublist.refl _⟩
      cases hc : detachChildren r.p_children
          (k.store p { r with p_cwd := none, p_filetable := none, p_addrspace := none }) with
      | error f => rw [hc] at h; cases h
      | ok k2 =>
        rw [hc] at h
        simp only at h
        have hs2 := kernel_shrunk_trans hs1 (detachChildren_shrunk _ hc)
        cases hd2 : k2.deref p with
        | error f => rw [hd2] at h; cases h
        | ok r2 =>
          rw [hd2] at h
          simp only at h
          have hpid : r2.p_pid = r.p_pid := by
            obtain ⟨r', hr', hsh⟩ := shrunk_deref hs2 hd
            rw [hd2] at hr'
            injection hr' with e
            rw [e]
            exact hsh.2.1
          have hpar : some p ∉ r.p_children → r2.p_parent = r.p_parent := by
            intro hn
            have h1 := detachChildren_untouched _ p hn hc
            rw [heap_store_self hd, ← deref_eq_ok, hd2] at h1
            injection h1 with h1
            rw [h1]
          cases hp : r2.p_parent with
          | some pp =>
            rw [hp] at h hpar
            simp only at h
            cases h3 : detachFromParent k2 r2.p_pid pp with
            | error f => rw [h3] at h; cases h
            | ok k3 =>
              rw [h3] at h
              simp only at h
              have hs3 := kernel_shrunk_trans hs2 (detachFromParent_shrunk h3)
              obtain ⟨hpos, hnum, hheap, htbl, hkp⟩ := decrementTally_ok h
              refine ⟨r, k3, some pp, hk, rfl, hs3, hpar, ?_, ?_, ?_, Or.inl ⟨by simp, hheap, ?_⟩⟩
              · rw [hkp, hs3.2.1]
              · rw [hs3.2.2.1] at hpos; exact hpos
              · rw [hnum, hs3.2.2.1]
              · rw [htbl, hs3.1]
          | none =>
            rw [hp] at h hpar
            simp only at h
            unfold procarray_set at h
            by_cases hlt : r2.p_pid < k2.proc_table.length
            · simp only [hlt, if_true] at h
              obtain ⟨hpos, hnum, hheap, htbl, hkp⟩ := decrementTally_ok h
              refine ⟨r, k2, none, hk, rfl, hs2, hpar, ?_, ?_, ?_, Or.inr ⟨rfl, ?_, ?_, ?_⟩⟩
              · rw [hkp]; exact hs2.2.1
              · have := hs2.2.2.1
                simp only [Kernel.kfree] at hpos
                rw [this] at hpos; exact hpos
              · rw [hnum]; simp only [Kernel.kfree]; rw [hs2.2.2.1]
              · rw [← hpid, ← hs2.1]; exact hlt
              · rw [htbl]; simp only [Kernel.kfree]; rw [hs2.1, hpid]
              · rw [hheap]; rfl
            · simp only [hlt, if_false] at h
              cases h

/-! ## Well-formedness is preserved -/

theorem setFirstAvail_slot (t : ProcArray) (v : Option Ptr) :
    (procarray_setFirstAvail t v).1[(procarray_setFirstAvail t v).2]? = some v := by
  induction t with
  | nil => simp [procarray_setFirstAvail]
  | cons a rest ih =>
    cases a with
    | none => simp [procarray_setFirstAvail]
    | some q => simpa [procarray_setFirstAvail] using ih

theorem setFirstAvail_other (t : ProcArray) (v : Option Ptr) (i : Nat)
    (h : i ≠ (procarray_setFirstAvail t v).2) :
    (procarray_setFirstAvail t v).1[i]? = t[i]? := by
  induction t generalizing i with
  | nil =>
    simp only [procarray_setFirstAvail] at h ⊢
    cases i with
    | zero => exact absurd rfl h
    | succ n => simp
  | cons a rest ih =>
    cases a with
    | none =>
      simp only [procarray_setFirstAvail] at h ⊢
      cases i with
      | zero => exact absurd rfl h
      | succ n => simp
    | some q =>
      simp only [procarray_setFirstAvail] at h ⊢
      cases i with
      | zero => simp
      | succ n =>
        simp only [List.getElem?_cons_succ]
        exact ih n (fun e => h (by rw [e]))

theorem setFirstAvail_free (t : ProcArray) (v : Option Ptr) :
    t[(procarray_setFirstAvail t v).2]? = none ∨
    t[(procarray_setFirstAvail t v).2]? = some none := by
  induction t with
  | nil => simp [procarray_setFirstAvail]
  | cons a rest ih =>
    cases a with
    | none => simp [procarray_setFirstAvail]
    | some q => simpa [procarray_setFirstAvail] using ih

theorem WF_congr {k k1 : Kernel} (hh : k1.heap = k.heap) (ht : k1.proc_table = k.proc_table)
    (hk : k1.kproc = k.kproc) (w : WF k) : WF k1 := by
  have hd : ∀ p, k1.deref p = k.deref p := fun p => by unfold Kernel.deref; rw [hh]
  constructor
  · intro i p h; rw [ht] at h; rw [hd]; exact w.reg i p h
  · intro p r h; rw [hd] at h; rw [ht]; exact w.registered p r h
  · intro p r h; rw [hd] at h; exact w.above p r h
  · obtain ⟨kp, r, h1, h2, h3⟩ := w.kernel
    exact ⟨kp, r, hk.trans h1, (hd kp).trans h2, h3⟩

theorem WF_store {k : Kernel} {p : Nat} {r r1 : Proc} (w : WF k) (h : k.deref p = .ok r)
    (hpid : r1.p_pid = r.p_pid) (hch : ∀ c ∈ r1.p_children, c ∈ r.p_children) :
    WF (k.store p r1) := by
  have hself : (k.store p r1).deref p = .ok r1 := deref_store_self h
  have hne : ∀ q, p ≠ q → (k.store p r1).deref q = k.deref q := fun q hq => deref_store_ne r1 hq
  constructor
  · intro i q hq
    have hq' : k.proc_table[i]? = some (some q) := hq
    obtain ⟨r0, h0, h1⟩ := w.reg i q hq'
    by_cases e : p = q
    · subst e
      rw [h] at h0
      injection h0 with h0
      subst h0
      exact ⟨r1, hself, hpid.trans h1⟩
    · exact ⟨r0, (hne q e).trans h0, h1⟩
  · intro q rq hq
    show k.proc_table[rq.p_pid]? = some (some q)
    by_cases e : p = q
    · subst e
      rw [hself] at hq
      injection hq with hq
      subst hq
      rw [hpid]
      exact w.registered p r h
    · rw [hne q e] at hq
      exact w.registered q rq hq
  · intro q rq hq c hc
    by_cases e : p = q
    · subst e
      rw [hself] at hq
      injection hq with hq
      subst hq
      exact w.above p r h c (hch c hc)
    · rw [hne q e] at hq
      exact w.above q rq hq c hc
  · obtain ⟨kp, rk, h1, h2, h3⟩ := w.kernel
    by_cases e : p = kp
    · subst e
      rw [h] at h2
      injection h2 with h2
      subst h2
      exact ⟨p, r1, h1, hself, hpid.trans h3⟩
    · exact ⟨kp, rk, h1, (hne kp e).trans h2, h3⟩

theorem WF_shrunk {k km : Kernel} (w : WF k) (hs : k.Shrunk km) : WF km := by
  obtain ⟨ht, hk, _, _, hc⟩ := hs
  have hs' : k.Shrunk km := ⟨ht, hk, ‹_›, ‹_›, hc⟩
  constructor
  · intro i p h
    rw [ht] at h
    obtain ⟨r, h0, h1⟩ := w.reg i p h
    obtain ⟨r1, h2, h3⟩ := shrunk_deref hs' h0
    exact ⟨r1, h2, h3.2.1.trans h1⟩
  · intro p r1 h
    obtain ⟨r, h0, h1⟩ := shrunk_deref_back hs' h
    rw [ht, h1.2.1]
    exact w.registered p r h0
  · intro p r1 h c hcm
    obtain ⟨r, h0, h1⟩ := shrunk_deref_back hs' h
    exact w.above p r h0 c (h1.2.2.2.2.2.subset hcm)
  · obtain ⟨kp, rk, h1, h2, h3⟩ := w.kernel
    obtain ⟨r1, h4, h5⟩ := shrunk_deref hs' h2
    exact ⟨kp, r1, hk.trans h1, h4, h5.2.1.trans h3⟩

theorem WF_proc_destroy {k k1 : Kernel} {proc : Option Ptr} (w : WF k)
    (h : proc_destroy k proc = .ok k1) : WF k1 := by
  cases proc with
  | none => simp [proc_destroy] at h
  | some p =>
    obtain ⟨r, km, par, hkp, hd, hs, _, hk1, _, _, hcase⟩ := proc_destroy_effect h
    have wm : WF km := WF_shrunk w hs
    rcases hcase with ⟨_, hheap, htbl⟩ | ⟨_, hlt, htbl, hheap⟩
    · exact WF_congr hheap (htbl.trans hs.1.symm) (hk1.trans hs.2.1.symm) wm
    · obtain ⟨rm, hdm, hsh⟩ := shrunk_deref hs hd
      have hpm : rm.p_pid = r.p_pid := hsh.2.1
      have hplt : p < km.heap.length := deref_lt hdm
      have hdp : k1.deref p = .error .badPointer := by
        unfold Kernel.deref
        rw [hheap]
        simp [hplt]
      have hdq : ∀ q, q ≠ p → k1.deref q = km.deref q := by
        intro q hq
        unfold Kernel.deref
        rw [hheap, List.getElem?_set_ne (Ne.symm hq)]
      have hlive : ∀ q rq, k1.deref q = .ok rq → q ≠ p := by
        intro q rq hq e
        subst e
        rw [hdp] at hq
        cases hq
      constructor
      · intro i q hq
        rw [htbl] at hq
        have hi : r.p_pid ≠ i := by
          intro e
          subst e
          rw [List.getElem?_set_self hlt] at hq
          injection hq with hq
          cases hq
        rw [List.getElem?_set_ne hi, ← hs.1] at hq
        obtain ⟨rq, h1, h2⟩ := wm.reg i q hq
        have hqp : q ≠ p := by
          intro e
          subst e
          rw [hdm] at h1
          injection h1 with h1
          subst h1
          exact hi (hpm.symm.trans h2)
        exact ⟨rq, (hdq q hqp).trans h1, h2⟩
      · intro q rq hq
        have hqp := hlive q rq hq
        rw [hdq q hqp] at hq
        have h1 := wm.registered q rq hq
        have hi : r.p_pid ≠ rq.p_pid := by
          intro e
          have h2 := wm.registered p rm hdm
          rw [hpm, e, h1] at h2
          injection h2 with h2
          injection h2 with h2
          exact hqp h2
        rw [htbl, List.getElem?_set_ne hi, ← hs.1]
        exact h1
      · intro q rq hq c hc
        have hqp := hlive q rq hq
        rw [hdq q hqp] at hq
        exact wm.above q rq hq c hc
      · obtain ⟨kp, rk, h1, h2, h3⟩ := wm.kernel
        have hne : kp ≠ p := by
          intro e
          subst e
          exact hkp (by rw [← hs.2.1, h1])
        exact ⟨kp, rk, (hk1.trans hs.2.1.symm).trans h1, (hdq kp hne).trans h2, h3⟩

/-- A successful `proc_create` that returns a record: where it went. -/
theorem proc_create_effect {k k1 : Kernel} {name : String} {env : CreateEnv} {p : Nat}
    (h : proc_create k name env = .ok (k1, some p)) :
    p = k.heap.length ∧
    k1.heap = k.heap ++ [some
      { p_name := name, p_pid := (procarray_setFirstAvail k.proc_table (some p)).2,
        p_addrspace := none, p_cwd := none, p_filetable := none, p_parent := none,
        p_children := [], p_exitstatus := 0, p_exitable := false }] ∧
    k1.proc_table = (procarray_setFirstAvail k.proc_table (some p)).1 ∧
    k1.kproc = k.kproc ∧
    k1.num_processes =
      (if (procarray_setFirstAvail k.proc_table (some p)).2 ≠ 0 then k.num_processes + 1
       else k.num_processes) ∧
    k1.no_proc_sem = k.no_proc_sem := by
  unfold proc_create at h
  by_cases h1 : env.kmalloc_proc = false
  · simp [h1] at h
  · by_cases h2 : env.kstrdup_name = false
    · simp [h1, h2] at h
    · by_cases h3 : env.lock_create_lk = false
      · simp [h1, h2, h3] at h
      · by_cases h4 : env.cv_create_cv = false
        · simp [h1, h2, h3, h4] at h
        · simp only [h1, h2, h3, h4, if_false] at h
          injection h with h
          injection h with ha hb
          injection hb with hb
          subst hb
          subst ha
          exact ⟨rfl, rfl, rfl, rfl, rfl, rfl⟩

/-- A `proc_create` that returns `NULL` leaves the kernel state alone. -/
theorem proc_create_none {k k1 : Kernel} {name : String} {env : CreateEnv}
    (h : proc_create k name env = .ok (k1, none)) : k1 = k := by
  unfold proc_create at h
  by_cases h1 : env.kmalloc_proc = false
  · simp [h1] at h; exact h.symm
  · by_cases h2 : env.kstrdup_name = false
    · simp [h1, h2] at h; exact h.symm
    · by_cases h3 : env.lock_create_lk = false
      · simp [h1, h2, h3] at h
      · by_cases h4 : env.cv_create_cv = false
        · simp [h1, h2, h3, h4] at h
        · simp [h1, h2, h3, h4] at h

theorem deref_append_old {k k1 : Kernel} {c : Option Proc} (hh : k1.heap = k.heap ++ [c])
    {q : Nat} (hq : q < k.heap.length) : k1.deref q = k.deref q := by
  unfold Kernel.deref
  rw [hh, List.getElem?_append_left hq]

theorem deref_append_new {k k1 : Kernel} {r : Proc} (hh : k1.heap = k.heap ++ [some r]) :
    k1.deref k.heap.length = .ok r := by
  rw [deref_eq_ok, hh, List.getElem?_concat_length]

theorem deref_append_cases {k k1 : Kernel} {r : Proc} (hh : k1.heap = k.heap ++ [some r])
    {q : Nat} {rq : Proc} (h : k1.deref q = .ok rq) :
    (q < k.heap.length ∧ k.deref q = .ok rq) ∨ (q = k.heap.length ∧ rq = r) := by
  have hlt : (q : Nat) < k1.heap.length := deref_lt h
  rw [hh, List.length_append, List.length_singleton] at hlt
  rcases Nat.lt_or_ge q k.heap.length with hq | hq
  · left
    exact ⟨hq, by rw [← deref_append_old hh hq]; exact h⟩
  · right
    have e : (q : Nat) = k.heap.length := by omega
    subst e
    rw [deref_append_new hh] at h
    injection h with h
    exact ⟨rfl, h.symm⟩

theorem WF_proc_create {k k1 : Kernel} {name : String} {env : CreateEnv} {ret : Option Ptr}
    (w : WF k) (h : proc_create k name env = .ok (k1, ret)) : WF k1 := by
  cases ret with
  | none => rw [proc_create_none h]; exact w
  | some p =>
    obtain ⟨hp, hheap, htbl, hkp, _, _⟩ := proc_create_effect h
    subst hp
    have hnew := deref_append_new hheap
    have hfree := setFirstAvail_free k.proc_table (some k.heap.length)
    constructor
    · intro i q hq
      rw [htbl] at hq
      by_cases hi : i = (procarray_setFirstAvail k.proc_table (some k.heap.length)).2
      · subst hi
        rw [setFirstAvail_slot] at hq
        injection hq with hq
        injection hq with hq
        subst hq
        exact ⟨_, hnew, rfl⟩
      · rw [setFirstAvail_other _ _ _ hi] at hq
        obtain ⟨r, h1, h2⟩ := w.reg i q hq
        exact ⟨r, (deref_append_old hheap (deref_lt h1)).trans h1, h2⟩
    · intro q rq hq
      rcases deref_append_cases hheap hq with ⟨_, h1⟩ | ⟨h1, h2⟩
      · have h3 := w.registered q rq h1
        have hi : rq.p_pid ≠ (procarray_setFirstAvail k.proc_table (some k.heap.length)).2 := by
          intro e
          rw [e] at h3
          rcases hfree with hf | hf <;> rw [hf] at h3 <;> cases h3
        rw [htbl, setFirstAvail_other _ _ _ hi]
        exact h3
      · subst h1 h2
        rw [htbl]
        exact setFirstAvail_slot _ _
    · intro q rq hq c hc
      rcases deref_append_cases hheap hq with ⟨_, h1⟩ | ⟨_, h2⟩
      · exact w.above q rq h1 c hc
      · subst h2
        cases hc
    · obtain ⟨kp, rk, h1, h2, h3⟩ := w.kernel
      exact ⟨kp, rk, hkp.trans h1, (deref_append_old hheap (deref_lt h2)).trans h2, h3⟩

theorem proc_bootstrap_state {env : BootEnv} {k : Kernel} (h : proc_bootstrap env = .ok k) :
    k = kBoot := by
  unfold proc_bootstrap at h
  by_cases h0 : env.ptable_lk = false
  · simp [h0] at h
  · simp only [h0, if_false] at h
    unfold proc_create at h
    by_cases h1 : env.create.kmalloc_proc = false
    · simp [h1] at h
    · by_cases h2 : env.create.kstrdup_name = false
      · simp [h1, h2] at h
      · by_cases h3 : env.create.lock_create_lk = false
        · simp [h1, h2, h3] at h
        · by_cases h4 : env.create.cv_create_cv = false
          · simp [h1, h2, h3, h4] at h
          · by_cases h5 : env.num_proc_lk = false
            · simp [h1, h2, h3, h4, h5] at h
            · by_cases h6 : env.no_proc_sem = false
              · simp [h1, h2, h3, h4, h5, h6] at h
              · simp only [h1, h2, h3, h4, h5, h6, if_false] at h
                injection h with h
                rw [← h]
                rfl

theorem WF_kBoot : WF kBoot := by
  constructor
  · intro i p h
    have hi : i = 0 ∧ p = 0 := by
      cases i with
      | zero =>
        have : kBoot.proc_table[0]? = some (some 0) := rfl
        rw [this] at h
        injection h with h
        injection h with h
        exact ⟨rfl, h.symm⟩
      | succ n =>
        have : kBoot.proc_table[n + 1]? = none := rfl
        rw [this] at h
        cases h
    obtain ⟨h1, h2⟩ := hi
    subst h1 h2
    exact ⟨_, rfl, rfl⟩
  · intro p r h
    have hlt : (p : Nat) < kBoot.heap.length := deref_lt h
    have hl : kBoot.heap.length = 1 := rfl
    have hp : (p : Nat) = 0 := by omega
    subst hp
    have : kBoot.deref 0 = .ok
        { p_name := "[kernel]", p_pid := 0, p_addrspace := none, p_cwd := none,
          p_filetable := none, p_parent := none, p_children := [], p_exitstatus := 0,
          p_exitable := false } := rfl
    rw [this] at h
    injection h with h
    subst h
    rfl
  · intro p r h c hc
    have hlt : (p : Nat) < kBoot.heap.length := deref_lt h
    have hl : kBoot.heap.length = 1 := rfl
    have hp : (p : Nat) = 0 := by omega
    subst hp
    have : kBoot.deref 0 = .ok
        { p_name := "[kernel]", p_pid := 0, p_addrspace := none, p_cwd := none,
          p_filetable := none, p_parent := none, p_children := [], p_exitstatus := 0,
          p_exitable := false } := rfl
    rw [this] at h
    injection h with h
    subst h
    cases hc
  · exact ⟨0, _, rfl, rfl, rfl⟩

theorem WF_proc_setas {k k1 : Kernel} {cur : Nat} {newas old : Option Nat} (w : WF k)
    (h : proc_setas k cur newas = .ok (k1, old)) : WF k1 := by
  unfold proc_setas at h
  cases hd : k.deref cur with
  | error f => rw [hd] at h; cases h
  | ok r =>
    rw [hd] at h
    simp only at h
    injection h with h
    injection h with h1 h2
    subst h1
    exact WF_store w hd rfl (fun c hc => hc)

theorem WF_proc_create_runprogram {k k1 : Kernel} {cur : Nat} {name : String} {env : CreateEnv}
    {ret : Option Ptr} (w : WF k)
    (h : proc_create_runprogram k cur name env = .ok (k1, ret)) : WF k1 := by
  unfold proc_create_runprogram at h
  cases hc : proc_create k name env with
  | error f => rw [hc] at h; cases h
  | ok x =>
    obtain ⟨k2, ret2⟩ := x
    rw [hc] at h
    have w2 := WF_proc_create w hc
    cases ret2 with
    | none =>
      simp only at h
      injection h with h
      injection h with h1 h2
      subst h1
      exact w2
    | some q =>
      simp only at h
      cases hd : k2.deref q with
      | error f => rw [hd] at h; simp at h
      | ok r =>
        cases hd2 : k2.deref cur with
        | error f => rw [hd, hd2] at h; simp at h
        | ok rc =>
          rw [hd, hd2] at h
          simp only at h
          injection h with h
          injection h with h1 h2
          subst h1
          exact WF_store w2 hd rfl (fun c hc => hc)

theorem WF_proc_fork {k k1 : Kernel} {cur : Nat} {env : ForkEnv} {e : Option Errno}
    {ret : Option Ptr} (w : WF k) (h : proc_fork k cur env = .ok (k1, e, ret)) :
    WF k1 ∧ ∀ c, ret = some c → cur < c ∧ ∃ rc, k1.deref c = .ok rc ∧ rc.p_children = [] := by
  unfold proc_fork at h
  cases hd : k.deref cur with
  | error f => rw [hd] at h; cases h
  | ok rcur =>
    rw [hd] at h
    simp only at h
    cases hc : proc_create k rcur.p_name env.create with
    | error f => rw [hc] at h; cases h
    | ok x =>
      obtain ⟨k2, ret2⟩ := x
      rw [hc] at h
      have w2 := WF_proc_create w hc
      cases ret2 with
      | none =>
        simp only at h
        injection h with h
        injection h with h1 h2
        injection h2 with h2 h3
        subst h1 h3
        exact ⟨w2, fun c hc => by cases hc⟩
      | some q =>
        simp only at h
        obtain ⟨hq, hheap, _⟩ := proc_create_effect hc
        cases hd2 : k2.deref q with
        | error f => rw [hd2] at h; cases h
        | ok r =>
          rw [hd2] at h
          simp only at h
          have hr : r.p_children = [] := by
            have := deref_append_new hheap
            rw [← hq, hd2] at this
            injection this with this
            rw [this]
          split at h
          · cases hx : proc_destroy (k2.store q { r with p_addrspace := none }) (some q) with
            | error f => rw [hx] at h; cases h
            | ok k3 =>
              rw [hx] at h
              simp only at h
              injection h with h
              injection h with h1 h2
              injection h2 with h2 h3
              subst h1 h3
              have w3 : WF (k2.store q { r with p_addrspace := none }) :=
                WF_store w2 hd2 rfl (fun c hc => hc)
              exact ⟨WF_proc_destroy w3 hx, fun c hc => by cases hc⟩
          · injection h with h
            injection h with h1 h2
            injection h2 with h2 h3
            subst h1 h3
            refine ⟨WF_store w2 hd2 rfl (fun c hc => hc), fun c hc => ?_⟩
            injection hc with hc
            subst hc
            refine ⟨?_, _, deref_store_self hd2, hr⟩
            rw [hq]
            exact deref_lt hd

theorem WF_forkFail {k k1 : Kernel} {child : Nat} {e : Errno} {e1 : Option Errno}
    {ret : Option Nat} (w : WF k) (h : forkFail k child e = .ok (k1, e1, ret)) : WF k1 := by
  unfold forkFail at h
  cases hx : proc_destroy k (some child) with
  | error f => rw [hx] at h; cases h
  | ok k3 =>
    rw [hx] at h
    simp only at h
    injection h with h
    injection h with h1 h2
    subst h1
    exact WF_proc_destroy w hx

theorem WF_forkLink {k k1 : Kernel} {cur child : Nat} {env : ForkEnv} {e1 : Option Errno}
    {ret : Option Nat} (w : WF k) (hlt : cur < child)
    (h : forkLink k cur child env = .ok (k1, e1, ret)) : WF k1 := by
  unfold forkLink at h
  cases hd : k.deref child with
  | error f => rw [hd] at h; cases h
  | ok c =>
    rw [hd] at h
    simp only at h
    have w1 : WF (k.store child { c with
        p_addrspace := some env.addrspace
        p_filetable := if env.filetable_copy_sys = 0 then some env.filetable_sys else c.p_filetable
        p_parent := some cur }) := WF_store w hd rfl (fun c hc => hc)
    generalize hk1 : k.store child { c with
        p_addrspace := some env.addrspace
        p_filetable := if env.filetable_copy_sys = 0 then some env.filetable_sys else c.p_filetable
        p_parent := some cur } = k1' at h w1
    cases hd1 : k1'.deref cur with
    | error f => rw [hd1] at h; cases h
    | ok cur1 =>
      rw [hd1] at h
      simp only at h
      have w2 : WF (if env.procarray_add_ok = true then
          k1'.store cur { cur1 with p_children := (procarray_add cur1.p_children (some child)).1 }
          else k1') := by
        split
        · have wa := w1.above cur cur1 hd1
          have hself : (k1'.store cur
              { cur1 with p_children := (procarray_add cur1.p_children (some child)).1 }).deref cur
              = .ok { cur1 with p_children := (procarray_add cur1.p_children (some child)).1 } :=
            deref_store_self hd1
          have hne : ∀ q, cur ≠ q → (k1'.store cur
              { cur1 with p_children := (procarray_add cur1.p_children (some child)).1 }).deref q
              = k1'.deref q := fun q hq => deref_store_ne _ hq
          constructor
          · intro i q hq
            have hq' : k1'.proc_table[i]? = some (some q) := hq
            obtain ⟨r0, h0, h1⟩ := w1.reg i q hq'
            by_cases e : cur = q
            · subst e
              rw [hd1] at h0
              injection h0 with h0
              subst h0
              exact ⟨_, hself, h1⟩
            · exact ⟨r0, (hne q e).trans h0, h1⟩
          · intro q rq hq
            show k1'.proc_table[rq.p_pid]? = some (some q)
            by_cases e : cur = q
            · subst e
              rw [hself] at hq
              injection hq with hq
              subst hq
              exact w1.registered cur cur1 hd1
            · rw [hne q e] at hq
              exact w1.registered q rq hq
          · intro q rq hq c hc
            by_cases e : cur = q
            · subst e
              rw [hself] at hq
              injection hq with hq
              subst hq
              simp only [procarray_add, List.mem_append, List.mem_singleton] at hc
              rcases hc with hc | hc
              · exact wa c hc
              · exact ⟨child, hc, hlt⟩
            · rw [hne q e] at hq
              exact w1.above q rq hq c hc
          · obtain ⟨kp, rk, h1, h2, h3⟩ := w1.kernel
            by_cases e : cur = kp
            · subst e
              rw [hd1] at h2
              injection h2 with h2
              subst h2
              exact ⟨cur, _, h1, hself, h3⟩
            · exact ⟨kp, rk, h1, (hne kp e).trans h2, h3⟩
        · exact w1
      split at h
      · exact WF_forkFail w2 h
      · injection h with h
        injection h with h1 h2
        rw [← h1]
        exact w2

theorem WF_sys_fork {k k1 : Kernel} {cur : Nat} {env : ForkEnv} {e : Option Errno}
    {ret : Option Nat} (w : WF k) (h : sys_fork k cur env = .ok (k1, e, ret)) : WF k1 := by
  unfold sys_fork at h
  cases hd : k.deref cur with
  | error f => rw [hd] at h; cases h
  | ok rcur =>
    rw [hd] at h
    simp only at h
    cases hf : proc_fork k cur env with
    | error f => rw [hf] at h; cases h
    | ok x =>
      obtain ⟨k2, e2, ret2⟩ := x
      rw [hf] at h
      obtain ⟨w2, hret⟩ := WF_proc_fork w hf
      cases ret2 with
      | none =>
        simp only at h
        injection h with h
        injection h with h1 h2
        subst h1
        exact w2
      | some child =>
        simp only at h
        obtain ⟨hlt, _⟩ := hret child rfl
        cases hd2 : k2.deref child with
        | error f => rw [hd2] at h; cases h
        | ok c =>
          rw [hd2] at h
          simp only at h
          have w3 : WF (k2.store child { c with p_name := rcur.p_name ++ "_c" }) :=
            WF_store w2 hd2 rfl (fun c hc => hc)
          split at h
          · cases h
          · split at h
            · exact WF_forkFail w3 h
            · split at h
              · exact WF_forkFail w3 h
              · split at h
                · exact WF_forkFail w3 h
                · exact WF_forkLink w3 hlt h

theorem WF_sys__exit {MK : Int → Int} {k k1 : Kernel} {cur : Nat} {c : Int} (w : WF k)
    (h : sys__exit MK k cur c = .ok k1) : WF k1 := by
  unfold sys__exit at h
  cases hd : k.deref cur with
  | error f => rw [hd] at h; cases h
  | ok r =>
    rw [hd] at h
    simp only at h
    split at h
    · cases h
    · have w1 : WF (k.store cur
          { r with p_addrspace := none, p_exitstatus := MK c, p_exitable := true }) :=
        WF_store w hd rfl (fun c hc => hc)
      exact WF_proc_destroy w1 h

/-- The kernel state is not written by `sys_waitpid`. -/
theorem sys_waitpid_state {k k1 : Kernel} {cur : Nat} {pid options : Int}
    {copyout : Option Errno} {out : WaitOutcome}
    (h : sys_waitpid k cur pid options copyout = .ok (k1, out)) : k1 = k := by
  unfold sys_waitpid at h
  split at h
  · injection h with h; injection h with h1 h2; exact h1.symm
  · split at h
    · cases h
    · cases h
    · split at h
      · cases h
      · split at h
        · injection h with h; injection h with h1 h2; exact h1.symm
        · split at h
          · injection h with h; injection h with h1 h2; exact h1.symm
          · split at h
            · injection h with h; injection h with h1 h2; exact h1.symm
            · injection h with h; injection h with h1 h2; exact h1.symm

theorem WF_step {MK : Int → Int} {k k1 : Kernel} (w : WF k) (h : Step MK k k1) : WF k1 := by
  cases h with
  | create name env ret h => exact WF_proc_create w h
  | create_runprogram cur name env ret h => exact WF_proc_create_runprogram w h
  | setas cur newas old h => exact WF_proc_setas w h
  | destroy proc h => exact WF_proc_destroy w h
  | fork cur env err ret h => exact WF_sys_fork w h
  | exit cur c h => exact WF_sys__exit w h
  | waitpid cur pid options copyout out h => rw [sys_waitpid_state h]; exact w

theorem WF_reachable {MK : Int → Int} {k : Kernel} (h : Reachable MK k) : WF k := by
  induction h with
  | boot env h => rw [proc_bootstrap_state h]; exact WF_kBoot
  | step _ hs ih => exact WF_step ih hs

/-! ## The concrete runs are reachable -/

theorem reachable_kInit : Reachable waitEncoding kInit :=
  Reachable.step
    (Reachable.step (Reachable.boot bootOk rfl)
      (Step.create_runprogram 0 "init" createOk (some 1) rfl))
    (Step.setas 1 (some 40) none rfl)

theorem reachable_kForked : Reachable waitEncoding kForked :=
  Reachable.step reachable_kInit (Step.fork 1 (forkOk 50) none (some 2) rfl)

theorem reachable_kChildExited : Reachable waitEncoding kChildExited :=
  Reachable.step reachable_kForked (Step.exit 2 7 rfl)

theorem reachable_kThree : Reachable waitEncoding kThree :=
  Reachable.step
    (Reachable.step reachable_kForked (Step.fork 1 (forkOk 51) none (some 3) rfl))
    (Step.fork 1 (forkOk 52) none (some 4) rfl)

theorem reachable_kThreeFirstExited : Reachable waitEncoding kThreeFirstExited :=
  Reachable.step reachable_kThree (Step.exit 2 7 rfl)

/-! ## Exit and wait -/

theorem proc_destroy_survivor {k k1 : Kernel} {p q : Nat} {r1 : Proc}
    (h : proc_destroy k (some p) = .ok k1) (hq : k1.deref q = .ok r1) :
    ∃ r, k.deref q = .ok r ∧ r.Shrunk r1 := by
  obtain ⟨r, km, par, _, hd, hs, _, _, _, _, hcase⟩ := proc_destroy_effect h
  rcases hcase with ⟨_, hheap, _⟩ | ⟨_, _, _, hheap⟩
  · have : km.deref q = .ok r1 := by
      unfold Kernel.deref at hq ⊢
      rw [← hheap]; exact hq
    exact shrunk_deref_back hs this
  · have hne : p ≠ q := by
      intro e
      subst e
      rw [deref_eq_ok, hheap] at hq
      obtain ⟨rm, hdm, _⟩ := shrunk_deref hs hd
      rw [List.getElem?_set_self (deref_lt hdm)] at hq
      injection hq with hq
      cases hq
    have : km.deref q = .ok r1 := by
      unfold Kernel.deref at hq ⊢
      rw [hheap, List.getElem?_set_ne hne] at hq
      exact hq
    exact shrunk_deref_back hs this

theorem sys__exit_survivor {MK : Int → Int} {k k1 : Kernel} {C : Nat} {c : Int} {r : Proc}
    (h : sys__exit MK k C c = .ok k1) (hr : k1.deref C = .ok r) :
    r.p_exitstatus = MK c ∧ r.p_exitable = true := by
  unfold sys__exit at h
  cases hd : k.deref C with
  | error f => rw [hd] at h; cases h
  | ok r0 =>
    rw [hd] at h
    simp only at h
    split at h
    · cases h
    · obtain ⟨ra, hra, hsh⟩ := proc_destroy_survivor h hr
      rw [deref_store_self hd] at hra
      injection hra with hra
      subst hra
      exact ⟨hsh.2.2.1, hsh.2.2.2.1⟩

theorem sys_waitpid_exited {k : Kernel} {P C : Nat} {pid : Int} {r : Proc}
    (hlook : proc_getProc k pid = .ok (some C)) (hrec : k.deref C = .ok r)
    (hpar : r.p_parent = some P) (hex : r.p_exitable = true) :
    sys_waitpid k P pid 0 none = .ok (k, .returned none (some pid) (some r.p_exitstatus)) := by
  unfold sys_waitpid
  simp [hlook, hrec, hpar, hex]

/-- C1.  Exit/wait returns the exact status: if the child `C` has run `sys__exit(c)` and the
registry lookup of `pid` yields `C`, whose parent is `P`, then `sys_waitpid(pid, status, 0)` by
`P` returns 0, reports `pid`, and writes exactly `_MKWAIT_EXIT(c)`, the value stored in the
child's exit status (the copy-out succeeding). -/
theorem exit_wait_exact_status (MKWAIT_EXIT : Int → Int) (k k1 : Kernel) (C P : Nat)
    (c pid : Int) (r : Proc)
    (hexit : sys__exit MKWAIT_EXIT k C c = .ok k1)
    (hlook : proc_getProc k1 pid = .ok (some C))
    (hrec : k1.deref C = .ok r) (hpar : r.p_parent = some P) :
    r.p_exitstatus = MKWAIT_EXIT c ∧
    sys_waitpid k1 P pid 0 none =
      .ok (k1, .returned none (some pid) (some (MKWAIT_EXIT c))) := by
  obtain ⟨hst, hex⟩ := sys__exit_survivor hexit hrec
  refine ⟨hst, ?_⟩
  rw [← hst]
  exact sys_waitpid_exited hlook hrec hpar hex

/-- Witness for C1: process 1 forks child 2, the child calls `_exit(7)`, the parent waits. -/
theorem exit_wait_exact_status_witness :
    sys__exit waitEncoding kForked 2 7 = .ok kChildExited ∧
    proc_getProc kChildExited 2 = .ok (some 2) ∧
    kChildExited.parentOf 2 = some 1 ∧
    sys_waitpid kChildExited 1 2 0 none =
      .ok (kChildExited, .returned none (some 2) (some (waitEncoding 7))) :=
  ⟨rfl, rfl, rfl,
    (exit_wait_exact_status waitEncoding kForked kChildExited 2 1 7 2
      { p_name := "init_c", p_pid := 2, p_addrspace := none, p_cwd := none,
        p_filetable := none, p_parent := some 1, p_children := [],
        p_exitstatus := 28, p_exitable := true } rfl rfl rfl rfl).2⟩

/-- C2, as stated, fails: after the parent's successful wait on its exited child the record is
still registered, and a second wait on the same pid succeeds again with the same status. -/
theorem second_wait_succeeds_again :
    sys__exit waitEncoding kForked 2 7 = .ok kChildExited ∧
    ∃ k1, sys_waitpid kChildExited 1 2 0 none =
        .ok (k1, .returned none (some 2) (some (waitEncoding 7))) ∧
      proc_getProc k1 2 = .ok (some 2) ∧
      sys_waitpid k1 1 2 0 none = .ok (k1, .returned none (some 2) (some (waitEncoding 7))) :=
  ⟨rfl, kChildExited, rfl, rfl, rfl⟩

/-- C2, amended.  A successful `sys_waitpid(pid, status, 0)` leaves the kernel state, and so the
registry, as it was (there is no reap step), and the same call made again by the same caller
returns 0 with the same pid and status. -/
theorem waitpid_keeps_zombie (k k1 : Kernel) (P : Nat) (pid v : Int)
    (h : sys_waitpid k P pid 0 none = .ok (k1, .returned none (some pid) (some v))) :
    k1 = k ∧ k1.proc_table = k.proc_table ∧
    sys_waitpid k1 P pid 0 none = .ok (k1, .returned none (some pid) (some v)) := by
  have e := sys_waitpid_state h
  subst e
  exact ⟨rfl, rfl, h⟩

/-- Witness for the amended C2 on the run of C1. -/
theorem waitpid_keeps_zombie_witness :
    kChildExited.registeredPids = [some 0, some 1, some 2] ∧
    sys_waitpid kChildExited 1 2 0 none =
      .ok (kChildExited, .returned none (some 2) (some 28)) :=
  ⟨rfl, (waitpid_keeps_zombie kChildExited kChildExited 1 2 28 rfl).2.2⟩

/-- C3 at the failing input: pids 0, 1, 2 are registered, process 1 waits for pid 99, and the
call returns 0 after reading the exit status of its child 2 and writing it out. -/
theorem waitpid_unknown_pid_reads_last_record :
    Reachable waitEncoding kChildExited ∧
    kChildExited.registeredPids = [some 0, some 1, some 2] ∧
    sys_waitpid kChildExited 1 99 0 none =
      .ok (kChildExited, .returned none (some 99) (some (waitEncoding 7))) :=
  ⟨reachable_kChildExited, rfl, rfl⟩

/-- C4 at the failing input: pids 0, 1, 2 are registered; the lookup of pid 1 returns its
record, and the lookup of pid 99 returns the record in the last slot, whose pid is 2. -/
theorem getProc_unknown_pid_returns_last :
    Reachable waitEncoding kForked ∧
    kForked.registeredPids = [some 0, some 1, some 2] ∧
    proc_getProc kForked 1 = .ok (some 1) ∧
    proc_getProc kForked 99 = .ok (some 2) ∧
    sys_getpid kForked 2 = .ok (0, 2) :=
  ⟨reachable_kForked, rfl, rfl, rfl, rfl⟩

/-- C5 at the failing input: process 1 has children 2, 3, 4; destroying child 2 leaves 2 in the
children array and removes 4. -/
theorem destroy_removes_wrong_sibling :
    Reachable waitEncoding kThree ∧
    kThree.parentOf 2 = some 1 ∧
    kThree.childrenOf 1 = [some 2, some 3, some 4] ∧
    ∃ k1, proc_destroy kThree (some 2) = .ok k1 ∧ k1.childrenOf 1 = [some 2, some 3] :=
  ⟨reachable_kThree, rfl, rfl, _, rfl, rfl⟩

/-- C6 at the failing input: after child 2 of process 1 has exited, destroying process 1 frees
it while child 4 still has it as parent reference. -/
theorem destroy_parent_leaves_parent_reference :
    Reachable waitEncoding kThreeFirstExited ∧
    kThreeFirstExited.parentOf 4 = some 1 ∧
    proc_destroy kThreeFirstExited (some 1) = .ok kThreeParentGone ∧
    kThreeParentGone.deref 1 = .error .badPointer ∧
    kThreeParentGone.registeredPids = [some 0, none, some 2, some 3, some 4] ∧
    kThreeParentGone.parentOf 4 = some 1 :=
  ⟨reachable_kThreeFirstExited, rfl, rfl, rfl, rfl, rfl⟩

/-- C10 at the failing input: `thread_fork` fails in a fork by process 1; the call returns
`ENOMEM`, yet pid 2 is now registered and listed among the caller's children. -/
theorem fork_failure_leaves_child :
    Reachable waitEncoding kInit ∧
    kInit.registeredPids = [some 0, some 1] ∧ kInit.childrenOf 1 = [] ∧
    sys_fork kInit 1 (forkThreadFails 50) = .ok (kForkFailed, some .ENOMEM, none) ∧
    kForkFailed.registeredPids = [some 0, some 1, some 2] ∧
    kForkFailed.childrenOf 1 = [some 2] ∧
    kForkFailed.num_processes = kInit.num_processes :=
  ⟨reachable_kInit, rfl, rfl, rfl, rfl, rfl, rfl⟩

/-! ## Registry invariants -/

theorem registry_slots_unique {k : Kernel} (w : WF k) {i j p q : Nat} {rp rq : Proc}
    (hi : k.proc_table[i]? = some (some p)) (hj : k.proc_table[j]? = some (some q))
    (hp : k.deref p = .ok rp) (hq : k.deref q = .ok rq) (he : rp.p_pid = rq.p_pid) :
    i = j ∧ p = q := by
  obtain ⟨r1, h1, e1⟩ := w.reg i p hi
  obtain ⟨r2, h2, e2⟩ := w.reg j q hj
  rw [hp] at h1
  rw [hq] at h2
  injection h1 with h1
  injection h2 with h2
  subst h1 h2
  have hij : i = j := by rw [← e1, ← e2, he]
  subst hij
  rw [hi] at hj
  injection hj with hj
  injection hj with hj
  exact ⟨rfl, hj⟩

theorem proc_create_fresh_slot {k k1 : Kernel} {name : String} {env : CreateEnv} {p : Nat}
    (h : proc_create k name env = .ok (k1, some p)) :
    ∃ r, k1.deref p = .ok r ∧ k1.proc_table[r.p_pid]? = some (some p) ∧
      ∀ q : Nat, k.proc_table[r.p_pid]? ≠ some (some q) := by
  obtain ⟨hp, hheap, htbl, _, _, _⟩ := proc_create_effect h
  subst hp
  refine ⟨_, deref_append_new hheap, ?_, ?_⟩
  · rw [htbl]
    exact setFirstAvail_slot _ _
  · intro q hq
    rcases setFirstAvail_free k.proc_table (some k.heap.length) with hf | hf
    · rw [hf] at hq; cases hq
    · rw [hf] at hq
      injection hq with hq
      cases hq

/-- C7.  PID uniqueness and no premature reuse: in every reachable state each occupied registry
slot `i` holds a record whose pid is `i`, so two occupied slots whose records have the same pid
are the same slot holding the same record, and a `proc_create` that returns a record gives it the
index of a slot that was not occupied (so never that of a zombie still registered). -/
theorem pid_unique_no_premature_reuse (MKWAIT_EXIT : Int → Int) (k : Kernel)
    (h : Reachable MKWAIT_EXIT k) :
    (∀ (i p : Nat), k.proc_table[i]? = some (some p) → ∃ r, k.deref p = .ok r ∧ r.p_pid = i) ∧
    (∀ (i j p q : Nat) (rp rq : Proc), k.proc_table[i]? = some (some p) →
      k.proc_table[j]? = some (some q) → k.deref p = .ok rp → k.deref q = .ok rq →
      rp.p_pid = rq.p_pid → i = j ∧ p = q) ∧
    (∀ (name : String) (env : CreateEnv) (k1 : Kernel) (p : Nat),
      proc_create k name env = .ok (k1, some p) →
      ∃ r, k1.deref p = .ok r ∧ k1.proc_table[r.p_pid]? = some (some p) ∧
        ∀ q : Nat, k.proc_table[r.p_pid]? ≠ some (some q)) :=
  ⟨(WF_reachable h).reg,
   fun _ _ _ _ _ _ hi hj hp hq he => registry_slots_unique (WF_reachable h) hi hj hp hq he,
   fun _ _ _ _ hc => proc_create_fresh_slot hc⟩

/-- Witness for C7: with the zombie of pid 2 still registered, slot 2 holds pid 2 and the next
`proc_create` hands out pid 3. -/
theorem pid_unique_no_premature_reuse_witness :
    Reachable waitEncoding kChildExited ∧
    kChildExited.registeredPids = [some 0, some 1, some 2] ∧
    (∃ r, kChildExited.deref 2 = .ok r ∧ r.p_pid = 2) ∧
    (∃ k1, proc_create kChildExited "next" createOk = .ok (k1, some 3) ∧
      k1.registeredPids = [some 0, some 1, some 2, some 3]) :=
  ⟨reachable_kChildExited, rfl,
   (pid_unique_no_premature_reuse waitEncoding kChildExited reachable_kChildExited).1 2 2 rfl,
   _, rfl, rfl⟩

/-! ## Immediate free versus zombie -/

theorem proc_destroy_slot {k k1 : Kernel} {R : Nat} {r : Proc} (w : WF k)
    (hr : k.deref R = .ok r) (hd : proc_destroy k (some R) = .ok k1) :
    (k1.proc_table[r.p_pid]? = some none ↔ r.p_parent = none) ∧
    (r.p_parent = none → k1.deref R = .error .badPointer) ∧
    (r.p_parent ≠ none →
      k1.proc_table[r.p_pid]? = some (some R) ∧
      ∃ r1, k1.deref R = .ok r1 ∧ r1.p_pid = r.p_pid ∧
        r1.p_exitstatus = r.p_exitstatus ∧ r1.p_exitable = r.p_exitable) := by
  obtain ⟨r0, km, par, _, hd0, hs, hpar, _, _, _, hcase⟩ := proc_destroy_effect hd
  rw [hr] at hd0
  injection hd0 with hd0
  subst hd0
  have hself : some R ∉ r.p_children := by
    intro hm
    obtain ⟨q, hq, hlt⟩ := w.above R r hr (some R) hm
    injection hq with hq
    subst hq
    exact Nat.lt_irrefl _ hlt
  have hp := hpar hself
  subst hp
  have hreg := w.registered R r hr
  obtain ⟨rm, hdm, hsh⟩ := shrunk_deref hs hr
  rcases hcase with ⟨hne, hheap, htbl⟩ | ⟨hnone, hlt, htbl, hheap⟩
  · have hk1 : k1.deref R = .ok rm := by
      unfold Kernel.deref at hdm ⊢
      rw [hheap]; exact hdm
    refine ⟨⟨fun h => ?_, fun h => absurd h hne⟩, fun h => absurd h hne, fun _ => ?_⟩
    · rw [htbl, hreg] at h
      injection h with h
      cases h
    · rw [htbl]
      exact ⟨hreg, rm, hk1, hsh.2.1, hsh.2.2.1, hsh.2.2.2.1⟩
  · have hk1 : k1.deref R = .error .badPointer := by
      unfold Kernel.deref
      rw [hheap, List.getElem?_set_self (deref_lt hdm)]
    refine ⟨⟨fun _ => hnone, fun _ => ?_⟩, fun _ => hk1, fun h => absurd hnone h⟩
    rw [htbl, List.getElem?_set_self hlt]

/-- C9.  Immediate free versus zombie: in a reachable state, a successful `proc_destroy(R)` empties
the registry slot of index `R.pid` exactly when `R` has no parent, and then the record is freed;
when `R` has a parent the slot still holds `R`, whose pid, exit status and exitable flag are
unchanged. -/
theorem destroy_frees_or_keeps_zombie (MKWAIT_EXIT : Int → Int) (k k1 : Kernel) (R : Nat)
    (r : Proc) (hreach : Reachable MKWAIT_EXIT k) (hr : k.deref R = .ok r)
    (hd : proc_destroy k (some R) = .ok k1) :
    (k1.proc_table[r.p_pid]? = some none ↔ r.p_parent = none) ∧
    (r.p_parent = none → k1.deref R = .error .badPointer) ∧
    (r.p_parent ≠ none →
      k1.proc_table[r.p_pid]? = some (some R) ∧
      ∃ r1, k1.deref R = .ok r1 ∧ r1.p_pid = r.p_pid ∧
        r1.p_exitstatus = r.p_exitstatus ∧ r1.p_exitable = r.p_exitable) :=
  proc_destroy_slot (WF_reachable hreach) hr hd

/-- Witness for C9.  Child 2 of process 1 is destroyed and stays in slot 2; process 1, which has
no parent, is destroyed and slot 1 is emptied. -/
theorem destroy_frees_or_keeps_zombie_witness :
    Reachable waitEncoding kForked ∧ kForked.parentOf 2 = some 1 ∧
    (∃ k1, proc_destroy kForked (some 2) = .ok k1 ∧ k1.proc_table[2]? = some (some 2)) ∧
    Reachable waitEncoding kInit ∧ kInit.parentOf 1 = none ∧
    (∃ k1, proc_destroy kInit (some 1) = .ok k1 ∧ k1.proc_table[1]? = some none) :=
  ⟨reachable_kForked, rfl,
   ⟨_, rfl,
    ((destroy_frees_or_keeps_zombie waitEncoding kForked _ 2
      { p_name := "init_c", p_pid := 2, p_addrspace := some 50, p_cwd := none,
        p_filetable := some 8, p_parent := some 1, p_children := [],
        p_exitstatus := 0, p_exitable := false }
      reachable_kForked rfl rfl).2.2 (by simp)).1⟩,
   reachable_kInit, rfl,
   ⟨_, rfl,
    (destroy_frees_or_keeps_zombie waitEncoding kInit _ 1
      { p_name := "init", p_pid := 1, p_addrspace := some 40, p_cwd := none,
        p_filetable := none, p_parent := none, p_children := [],
        p_exitstatus := 0, p_exitable := false }
      reachable_kInit rfl rfl).1.mpr rfl⟩⟩

/-! ## The live-process tally -/

theorem filter_range_flip (f g : Nat → Bool) (a : Nat) (hf : f a = true) (hg : g a = false)
    (hag : ∀ x, x ≠ a → g x = f x) :
    ∀ n, a < n → ((List.range n).filter g).length + 1 = ((List.range n).filter f).length := by
  intro n
  induction n with
  | zero => intro h; omega
  | succ n ih =>
    intro h
    rw [List.range_succ, List.filter_append, List.filter_append, List.length_append,
      List.length_append]
    by_cases e : a = n
    · subst e
      have hc : (List.range a).filter g = (List.range a).filter f := by
        apply List.filter_congr
        intro x hx
        have : x < a := List.mem_range.mp hx
        exact hag x (by omega)
      rw [hc]
      simp [hf, hg]
    · have hlt : a < n := by omega
      have := ih hlt
      have hn : g n = f n := hag n (fun e' => e e'.symm)
      simp only [List.filter_cons, List.filter_nil, hn]
      omega

theorem mem_userRecords {k : Kernel} {p : Nat} :
    p ∈ k.userRecords ↔ (∃ r, k.deref p = .ok r) ∧ some p ≠ k.kproc := by
  unfold Kernel.userRecords
  rw [List.mem_filter, List.mem_range]
  constructor
  · rintro ⟨_, h⟩
    rw [Bool.and_eq_true, decide_eq_true_iff] at h
    refine ⟨?_, h.2⟩
    cases hc : k.heap[p]? with
    | none => rw [hc] at h; simp at h
    | some c =>
      cases c with
      | none => rw [hc] at h; simp at h
      | some r => exact ⟨r, deref_eq_ok.mpr hc⟩
  · rintro ⟨⟨r, hr⟩, hk⟩
    refine ⟨deref_lt hr, ?_⟩
    rw [Bool.and_eq_true, decide_eq_true_iff]
    rw [deref_eq_ok] at hr
    exact ⟨by rw [hr]; rfl, hk⟩

theorem userRecords_create {k k1 : Kernel} {r : Proc} (hh : k1.heap = k.heap ++ [some r])
    (hk : k1.kproc = k.kproc) (hne : some k.heap.length ≠ k.kproc) :
    k1.userRecords.length = k.userRecords.length + 1 := by
  unfold Kernel.userRecords
  rw [hh, hk, List.length_append, List.length_singleton, List.range_succ, List.filter_append,
    List.length_append]
  have hc : (List.range k.heap.length).filter
        (fun p => ((k.heap ++ [some r])[p]?).join.isSome && decide (some p ≠ k.kproc))
      = (List.range k.heap.length).filter
        (fun p => (k.heap[p]?).join.isSome && decide (some p ≠ k.kproc)) := by
    apply List.filter_congr
    intro x hx
    have : x < k.heap.length := List.mem_range.mp hx
    rw [List.getElem?_append_left this]
  rw [hc]
  simp [hne]

theorem userRecords_free {k km k1 : Kernel} {p : Nat} {r : Proc} (hs : k.Shrunk km)
    (hd : k.deref p = .ok r) (hp : some p ≠ k.kproc) (hh : k1.heap = km.heap.set p none)
    (hk : k1.kproc = k.kproc) :
    k1.userRecords.length + 1 = k.userRecords.length := by
  have hlen : k1.heap.length = k.heap.length := by
    rw [hh, List.length_set]
    have h1 : ∀ n, km.heap.length ≤ n ↔ k.heap.length ≤ n := by
      intro n
      rw [← List.getElem?_eq_none_iff, ← List.getElem?_eq_none_iff]
      rcases hs.2.2.2.2 n with h | ⟨a, b, ha, hb, _⟩
      · rw [h]
      · rw [ha, hb]; simp
    have h2 := (h1 km.heap.length).mp (Nat.le_refl _)
    have h3 := (h1 k.heap.length).mpr (Nat.le_refl _)
    omega
  unfold Kernel.userRecords
  rw [hlen, hk]
  apply filter_range_flip _ _ p
  · rw [deref_eq_ok] at hd
    simp [hd, hp]
  · obtain ⟨rm, hdm, _⟩ := shrunk_deref hs hd
    rw [hh, List.getElem?_set_self (deref_lt hdm)]
    rfl
  · intro x hx
    rw [hh, List.getElem?_set_ne (Ne.symm hx)]
    rcases hs.2.2.2.2 x with h | ⟨a, b, ha, hb, _⟩
    · rw [h]
    · rw [ha, hb]; rfl
  · exact deref_lt hd

theorem CDInv_kBoot : CDInv kBoot := by
  refine ⟨WF_kBoot, ?_, rfl⟩
  intro p r h
  have hlt : (p : Nat) < kBoot.heap.length := deref_lt h
  have hl : kBoot.heap.length = 1 := rfl
  have hp : (p : Nat) = 0 := by omega
  subst hp
  have : kBoot.deref 0 = .ok
      { p_name := "[kernel]", p_pid := 0, p_addrspace := none, p_cwd := none,
        p_filetable := none, p_parent := none, p_children := [], p_exitstatus := 0,
        p_exitable := false } := rfl
  rw [this] at h
  injection h with h
  subst h
  exact ⟨rfl, rfl⟩

theorem CDInv_proc_create {k k1 : Kernel} {name : String} {env : CreateEnv} {ret : Option Ptr}
    (inv : CDInv k) (h : proc_create k name env = .ok (k1, ret)) : CDInv k1 := by
  cases ret with
  | none => rw [proc_create_none h]; exact inv
  | some p =>
    obtain ⟨hp, hheap, htbl, hkp, hnum, _⟩ := proc_create_effect h
    subst hp
    refine ⟨WF_proc_create inv.wf h, ?_, ?_⟩
    · intro q rq hq
      rcases deref_append_cases hheap hq with ⟨_, h1⟩ | ⟨_, h2⟩
      · exact inv.flat q rq h1
      · subst h2
        exact ⟨rfl, rfl⟩
    · obtain ⟨kp, rk, h1, h2, h3⟩ := inv.wf.kernel
      have hreg := inv.wf.registered kp rk h2
      rw [h3] at hreg
      have hidx : (procarray_setFirstAvail k.proc_table (some k.heap.length)).2 ≠ 0 := by
        intro e
        rcases setFirstAvail_free k.proc_table (some k.heap.length) with hf | hf <;>
          rw [e, hreg] at hf <;> cases hf
      have hne : some k.heap.length ≠ k.kproc := by
        rw [h1]
        intro e
        injection e with e
        have : (kp : Nat) < k.heap.length := deref_lt h2
        omega
      rw [hnum, if_pos hidx, userRecords_create hheap hkp hne, inv.tally]

theorem CDInv_proc_destroy {k k1 : Kernel} {proc : Option Ptr} (inv : CDInv k)
    (h : proc_destroy k proc = .ok k1) : CDInv k1 := by
  cases proc with
  | none => simp [proc_destroy] at h
  | some p =>
    obtain ⟨r, km, par, hkp, hd, hs, hpar, hk1, hpos, hnum, hcase⟩ := proc_destroy_effect h
    obtain ⟨hrp, hrc⟩ := inv.flat p r hd
    have hp : par = none := by
      rw [← hrp]
      apply hpar
      rw [hrc]
      exact List.not_mem_nil _
    refine ⟨WF_proc_destroy inv.wf h, ?_, ?_⟩
    · intro q r1 hq
      obtain ⟨r0, h0, hsh⟩ := proc_destroy_survivor h hq
      obtain ⟨h1, h2⟩ := inv.flat q r0 h0
      refine ⟨?_, ?_⟩
      · rcases hsh.2.2.2.2.1 with e | e
        · rw [e, h1]
        · exact e
      · have := hsh.2.2.2.2.2
        rw [h2] at this
        exact List.eq_nil_of_sublist_nil this
    · rcases hcase with ⟨hne, _, _⟩ | ⟨_, _, _, hheap⟩
      · exact absurd hp hne
      · have := userRecords_free hs hd hkp hheap hk1
        have ht := inv.tally
        omega

theorem proc_destroy_CD_ok {k : Kernel} {p : Nat} {r : Proc} (inv : CDInv k)
    (hd : k.deref p = .ok r) (hk : some p ≠ k.kproc) :
    ∃ k1, proc_destroy k (some p) = .ok k1 := by
  obtain ⟨hpar, hch⟩ := inv.flat p r hd
  have hreg := inv.wf.registered p r hd
  have hlt : r.p_pid < k.proc_table.length := (List.getElem?_eq_some.mp hreg).1
  have hpos : k.num_processes ≠ 0 := by
    have hm : p ∈ k.userRecords := mem_userRecords.mpr ⟨⟨r, hd⟩, hk⟩
    have := List.length_pos_of_mem hm
    rw [inv.tally]
    omega
  cases r with
  | mk nm pid as cwd ft par ch st ex =>
    simp only at hpar hch hlt
    subst hpar hch
    have hself : (k.store p
        { p_name := nm, p_pid := pid, p_addrspace := none, p_cwd := none, p_filetable := none,
          p_parent := none, p_children := [], p_exitstatus := st, p_exitable := ex }).deref p =
        .ok { p_name := nm, p_pid := pid, p_addrspace := none, p_cwd := none,
              p_filetable := none, p_parent := none, p_children := [], p_exitstatus := st,
              p_exitable := ex } :=
      deref_store_self hd
    unfold proc_destroy
    simp only [hk, if_false, hd, detachChildren, hself]
    simp [procarray_set, Kernel.store, hlt, decrementTally, Kernel.kfree, hpos]

theorem CDInv_reachable {k : Kernel} (h : ReachableCD k) : CDInv k := by
  induction h with
  | boot env h => rw [proc_bootstrap_state h]; exact CDInv_kBoot
  | create name env ret _ hc ih => exact CDInv_proc_create ih hc
  | destroy proc _ hd ih => exact CDInv_proc_destroy ih hd

theorem proc_destroy_CD_no_tally_assert {k : Kernel} (inv : CDInv k) (proc : Option Ptr) :
    proc_destroy k proc ≠ .error .assertNumProcesses := by
  cases proc with
  | none => simp [proc_destroy]
  | some p =>
    by_cases hk : some p = k.kproc
    · simp [proc_destroy, hk]
    · cases hd : k.deref p with
      | error f =>
        have hf : f = .badPointer := by
          unfold Kernel.deref at hd
          split at hd
          · cases hd
          · injection hd with hd; exact hd.symm
        subst hf
        simp [proc_destroy, hk, hd]
      | ok r =>
        obtain ⟨k1, h1⟩ := proc_destroy_CD_ok inv hd hk
        rw [h1]
        intro e
        cases e

/-- The tally over runs of `proc_create` and `proc_destroy` alone.  There no record has a parent,
so every `proc_destroy` frees its record and no zombie exists: `num_processes` is the number of
records that exist other than the kernel process, it is zero exactly when there is none, the
kernel process exists with pid 0 and is not counted, and no call of `proc_destroy` fails the
assertion `num_processes > 0`. -/
theorem tally_counts_user_records (k : Kernel) (h : ReachableCD k) :
    k.num_processes = k.userRecords.length ∧
    (k.num_processes = 0 ↔ k.userRecords = []) ∧
    (∃ (kp : Nat) (r : Proc), k.kproc = some kp ∧ k.deref kp = .ok r ∧ r.p_pid = 0 ∧
      kp ∉ k.userRecords) ∧
    (∀ proc : Option Ptr, proc_destroy k proc ≠ .error .assertNumProcesses) := by
  have inv := CDInv_reachable h
  refine ⟨inv.tally, ?_, ?_, proc_destroy_CD_no_tally_assert inv⟩
  · rw [inv.tally]
    exact List.length_eq_zero
  · obtain ⟨kp, rk, h1, h2, h3⟩ := inv.wf.kernel
    refine ⟨kp, rk, h1, h2, h3, fun hm => ?_⟩
    exact (mem_userRecords.mp hm).2 h1.symm

theorem reachableCD_kCreatedDestroyed : ReachableCD kCreatedDestroyed :=
  ReachableCD.destroy (some 1)
    (ReachableCD.create "b" createOk (some 2)
      (ReachableCD.create "a" createOk (some 1) (ReachableCD.boot bootOk rfl) rfl) rfl) rfl

/-- An instance of the previous statement: two records created and the first destroyed leave one
record, at address 2, and a tally of one. -/
theorem tally_counts_user_records_witness :
    ReachableCD kCreatedDestroyed ∧
    kCreatedDestroyed.userRecords = [2] ∧
    kCreatedDestroyed.registeredPids = [some 0, none, some 2] ∧
    kCreatedDestroyed.num_processes = kCreatedDestroyed.userRecords.length :=
  ⟨reachableCD_kCreatedDestroyed, rfl, rfl,
   (tally_counts_user_records kCreatedDestroyed reachableCD_kCreatedDestroyed).1⟩

/-! ## `sys_waitpid`: options and the parent check -/

/-- C14.  Invalid options are rejected first: for every state, caller, pid and copy-out result,
`sys_waitpid` with options other than 0 returns `EINVAL`, writes neither the status nor the
returned pid, does not block and leaves the kernel state as it was; this holds whether or not a
lookup of the pid would succeed. -/
theorem waitpid_rejects_options (k : Kernel) (P : Nat) (pid options : Int)
    (copyout : Option Errno) (h : options ≠ 0) :
    sys_waitpid k P pid options copyout = .ok (k, .returned (some .EINVAL) none none) := by
  unfold sys_waitpid
  rw [if_pos h]

/-- Witness for C14: process 1 waits for its child 2 with options 5; and in a state where the
lookup of pid 99 faults on an empty slot, options 5 still gives `EINVAL`. -/
theorem waitpid_rejects_options_witness :
    sys_waitpid kForked 1 2 5 none = .ok (kForked, .returned (some .EINVAL) none none) ∧
    proc_getProc kCreatedDestroyed 99 = .error .badPointer ∧
    sys_waitpid kCreatedDestroyed 2 99 5 none =
      .ok (kCreatedDestroyed, .returned (some .EINVAL) none none) :=
  ⟨waitpid_rejects_options kForked 1 2 5 none (by decide), rfl,
   waitpid_rejects_options kCreatedDestroyed 2 99 5 none (by decide)⟩

/-- C13.  Wait is restricted to the parent.  Let the lookup of `pid` find the record `C`.  A
caller `P` that is not the kernel process and not `C`'s parent gets `ECHILD`, with nothing
written, no blocking and the state unchanged.  For the kernel process the parent check is
skipped: the call blocks if `C` is not exitable and otherwise returns what the copy-out
returns, so it is rejected with `ECHILD` in no case. -/
theorem waitpid_parent_check (k : Kernel) (P C : Nat) (pid : Int) (c : Proc)
    (copyout : Option Errno)
    (hlook : proc_getProc k pid = .ok (some C)) (hrec : k.deref C = .ok c) :
    (some P ≠ k.kproc → c.p_parent ≠ some P →
      sys_waitpid k P pid 0 copyout = .ok (k, .returned (some .ECHILD) none none)) ∧
    (some P = k.kproc →
      (c.p_exitable = false → sys_waitpid k P pid 0 copyout = .ok (k, .blocked)) ∧
      (c.p_exitable = true → copyout = none →
        sys_waitpid k P pid 0 copyout =
          .ok (k, .returned none (some pid) (some c.p_exitstatus))) ∧
      (∀ e, c.p_exitable = true → copyout = some e →
        sys_waitpid k P pid 0 copyout = .ok (k, .returned (some e) none none))) := by
  refine ⟨fun h1 h2 => ?_, fun h1 => ⟨fun h2 => ?_, fun h2 h3 => ?_, fun e h2 h3 => ?_⟩⟩
  · unfold sys_waitpid
    simp [hlook, hrec, h1, h2]
  · unfold sys_waitpid
    simp [hlook, hrec, h1, h2]
  · unfold sys_waitpid
    simp [hlook, hrec, h1, h2, h3]
  · unfold sys_waitpid
    simp [hlook, hrec, h1, h2, h3]

/-- Witness for C13: of the three children of process 1, child 3 waits for child 2 and gets
`ECHILD`; the kernel process waits for the exited child 2 and gets its status. -/
theorem waitpid_parent_check_witness :
    kThreeFirstExited.parentOf 2 = some 1 ∧
    sys_waitpid kThreeFirstExited 3 2 0 none =
      .ok (kThreeFirstExited, .returned (some .ECHILD) none none) ∧
    sys_waitpid kThreeFirstExited 0 2 0 none =
      .ok (kThreeFirstExited, .returned none (some 2) (some 28)) :=
  ⟨rfl,
   (waitpid_parent_check kThreeFirstExited 3 2 2
      { p_name := "init_c", p_pid := 2, p_addrspace := none, p_cwd := none,
        p_filetable := none, p_parent := some 1, p_children := [],
        p_exitstatus := 28, p_exitable := true } none rfl rfl).1 (by decide) (by decide),
   ((waitpid_parent_check kThreeFirstExited 0 2 2
      { p_name := "init_c", p_pid := 2, p_addrspace := none, p_cwd := none,
        p_filetable := none, p_parent := some 1, p_children := [],
        p_exitstatus := 28, p_exitable := true } none rfl rfl).2 rfl).2.1 rfl rfl⟩

/-! ## Allocation failures in `proc_create` -/

/-- C12, as stated, fails for the third allocation: when `lock_create` or `cv_create` fails,
`proc_create` does not return to its caller at all, it panics. -/
theorem create_lock_failure_panics :
    proc_create kBoot "init" createLockFails = .error .panicked ∧
    proc_create kBoot "init" createCvFails = .error .panicked :=
  ⟨rfl, rfl⟩

/-- C12, amended.  When the allocation of the record or of its name fails, `proc_create` returns
`NULL` and the whole kernel state, registry and tally included, is as before the call.  When
both succeed and the creation of the wait lock or of the wait condition fails, `proc_create`
panics. -/
theorem create_fails_cleanly_or_panics (k : Kernel) (name : String) (env : CreateEnv) :
    (env.kmalloc_proc = false ∨ env.kstrdup_name = false →
      proc_create k name env = .ok (k, none)) ∧
    (env.kmalloc_proc = true → env.kstrdup_name = true →
      env.lock_create_lk = false ∨ env.cv_create_cv = false →
      proc_create k name env = .error .panicked) := by
  constructor
  · intro h
    unfold proc_create
    rcases h with h | h
    · simp [h]
    · by_cases h1 : env.kmalloc_proc = false
      · simp [h1]
      · simp [h1, h]
  · intro h1 h2 h3
    unfold proc_create
    rcases h3 with h3 | h3
    · simp [h1, h2, h3]
    · by_cases h4 : env.lock_create_lk = false
      · simp [h1, h2, h4]
      · simp [h1, h2, h4, h3]

/-- Witness for the amended C12: the name allocation fails in the state after bootstrap. -/
theorem create_fails_cleanly_or_panics_witness :
    proc_create kBoot "init" { createOk with kstrdup_name := false } = .ok (kBoot, none) ∧
    proc_create kBoot "init" { createOk with kmalloc_proc := false } = .ok (kBoot, none) :=
  ⟨(create_fails_cleanly_or_panics kBoot "init" { createOk with kstrdup_name := false }).1
      (Or.inr rfl),
   (create_fails_cleanly_or_panics kBoot "init" { createOk with kmalloc_proc := false }).1
      (Or.inl rfl)⟩

/-! ## The wait lock in `sys__exit` -/

/-- C15, as stated, fails: in the actions of `sys__exit(7)` the writes of the exit fields do not
all happen while the wait lock is held. -/
theorem exit_writes_outside_lock :
    underLock isExitWrite (sys__exit_actions waitEncoding 7) false = false ∧
    underLock isExitableWrite (sys__exit_actions waitEncoding 7) false = false :=
  ⟨rfl, rfl⟩

/-- C15, amended.  In the sequence of actions of `sys__exit`, the exit status and then
`exitable = true` are written first, with the wait lock not held; then the lock is acquired, the
broadcast happens while it is held, and the lock is released.  `exitable` is written once, to
`true`, and so never set back to `false`. -/
theorem exit_writes_then_locked_broadcast (MKWAIT_EXIT : Int → Int) (exitcode : Int) :
    (sys__exit_actions MKWAIT_EXIT exitcode).filter isProtocolAction =
      [.write_exitstatus (MKWAIT_EXIT exitcode), .write_exitable true, .lock_acquire,
       .cv_broadcast, .lock_release] ∧
    underLock isBroadcast (sys__exit_actions MKWAIT_EXIT exitcode) false = true ∧
    underLock isExitWrite (sys__exit_actions MKWAIT_EXIT exitcode) false = false ∧
    (sys__exit_actions MKWAIT_EXIT exitcode).filter isExitableWrite = [.write_exitable true] :=
  ⟨rfl, rfl, rfl, rfl⟩

/-! ## Lookup over a registry with an empty slot -/

/-- C16 at the failing input: after two `proc_create` and a `proc_destroy` of the first record,
slot 1 of the registry is empty; the lookup of pid 2 reads the pid field through the `NULL` of
that slot and faults, as does the lookup of any pid other than 0. -/
theorem getProc_faults_on_empty_slot :
    ReachableCD kCreatedDestroyed ∧
    kCreatedDestroyed.proc_table = [some 0, none, some 2] ∧
    kCreatedDestroyed.registeredPids = [some 0, none, some 2] ∧
    proc_getProc kCreatedDestroyed 0 = .ok (some 0) ∧
    proc_getProc kCreatedDestroyed 2 = .error .badPointer ∧
    proc_getProc kCreatedDestroyed 99 = .error .badPointer :=
  ⟨reachableCD_kCreatedDestroyed, rfl, rfl, rfl, rfl, rfl⟩

/-! ## The child's name -/

theorem strlen_append (a b : String) : strlen (a ++ b) = strlen a + strlen b := by
  cases a with
  | mk x =>
    cases b with
    | mk y =>
      show String.utf8ByteSize (String.mk (x ++ y)) = _
      simp [strlen, String.utf8ByteSize_mk, String.utf8Len_append]

/-- For every caller name and every `NAME_MAX`, the copy into the child's name writes two bytes
more than the buffer holds, and the temporary receives the length of the name plus three. -/
theorem fork_name_sizes (NAME_MAX : Nat) (name : String) :
    (sys_fork_names NAME_MAX name).p_name_bytes =
      (sys_fork_names NAME_MAX name).p_name_capacity + 2 ∧
    (sys_fork_names NAME_MAX name).child_name_bytes = strlen name + 3 ∧
    (sys_fork_names NAME_MAX name).child_name_capacity = NAME_MAX := by
  have h : strlen "_c" = 2 := rfl
  refine ⟨?_, ?_, rfl⟩
  · show strlen (name ++ "_c") + 1 = strlen name + 1 + 2
    rw [strlen_append, h]
  · show strlen (name ++ "_c") + 1 = strlen name + 3
    rw [strlen_append, h]

/-- C17 at the failing input: process "init" forks.  The child's name buffer has 5 bytes and
receives the 7 bytes of "init_c" and its terminator.  The same excess of two bytes occurs for
every caller name, and a name of `NAME_MAX - 2` bytes or more also overruns the temporary. -/
theorem fork_child_name_overflows :
    kInit.deref 1 = .ok
      { p_name := "init", p_pid := 1, p_addrspace := some 40, p_cwd := none,
        p_filetable := none, p_parent := none, p_children := [], p_exitstatus := 0,
        p_exitable := false } ∧
    sys_fork kInit 1 (forkOk 50) = .ok (kForked, none, some 2) ∧
    kForked.deref 2 = .ok
      { p_name := "init_c", p_pid := 2, p_addrspace := some 50, p_cwd := none,
        p_filetable := some 8, p_parent := some 1, p_children := [], p_exitstatus := 0,
        p_exitable := false } ∧
    (sys_fork_names 255 "init").p_name_capacity = 5 ∧
    (sys_fork_names 255 "init").p_name_bytes = 7 ∧
    (∀ (NAME_MAX : Nat) (name : String),
      (sys_fork_names NAME_MAX name).p_name_capacity <
        (sys_fork_names NAME_MAX name).p_name_bytes) ∧
    (∀ (NAME_MAX : Nat) (name : String), NAME_MAX ≤ strlen name + 2 →
      (sys_fork_names NAME_MAX name).child_name_capacity <
        (sys_fork_names NAME_MAX name).child_name_bytes) :=
  ⟨rfl, rfl, rfl, rfl, rfl,
   fun n name => by have := (fork_name_sizes n name).1; omega,
   fun n name h => by
     obtain ⟨_, h2, h3⟩ := fork_name_sizes n name
     omega⟩

/-! ## What a successful fork leaves behind -/

theorem forkFail_error {k k1 : Kernel} {child : Nat} {e : Errno} {e1 : Option Errno}
    {ret : Option Nat} (h : forkFail k child e = .ok (k1, e1, ret)) : e1 = some e := by
  unfold forkFail at h
  cases hx : proc_destroy k (some child) with
  | error f => rw [hx] at h; cases h
  | ok k3 =>
    rw [hx] at h
    simp only at h
    injection h with h
    injection h with h1 h2
    injection h2 with h2 h3
    exact h2.symm

theorem proc_fork_some {k k1 : Kernel} {cur child : Nat} {env : ForkEnv} {e : Option Errno}
    (h : proc_fork k cur env = .ok (k1, e, some child)) :
    ∃ (rcur : Proc) (kc : Kernel) (r r1 : Proc),
      k.deref cur = .ok rcur ∧ proc_create k rcur.p_name env.create = .ok (kc, some child) ∧
      kc.deref child = .ok r ∧ k1.proc_table = kc.proc_table ∧
      k1.deref child = .ok r1 ∧ r1.p_pid = r.p_pid ∧
      ∀ q : Nat, child ≠ q → k1.deref q = kc.deref q := by
  unfold proc_fork at h
  cases hd : k.deref cur with
  | error f => rw [hd] at h; cases h
  | ok rcur =>
    rw [hd] at h
    simp only at h
    cases hc : proc_create k rcur.p_name env.create with
    | error f => rw [hc] at h; cases h
    | ok x =>
      obtain ⟨k2, ret2⟩ := x
      rw [hc] at h
      cases ret2 with
      | none =>
        simp only at h
        injection h with h
        injection h with h1 h2
        injection h2 with h2 h3
        cases h3
      | some q =>
        simp only at h
        cases hd2 : k2.deref q with
        | error f => rw [hd2] at h; cases h
        | ok r =>
          rw [hd2] at h
          simp only at h
          split at h
          · cases hx : proc_destroy (k2.store q { r with p_addrspace := none }) (some q) with
            | error f => rw [hx] at h; cases h
            | ok k3 =>
              rw [hx] at h
              simp only at h
              injection h with h
              injection h with h1 h2
              injection h2 with h2 h3
              cases h3
          · injection h with h
            injection h with h1 h2
            injection h2 with h2 h3
            injection h3 with h3
            subst h1 h3
            exact ⟨rcur, k2, r, _, rfl, hc, hd2, rfl, deref_store_self hd2, rfl,
              fun q hq => deref_store_ne _ hq⟩

theorem forkLink_success {k k1 : Kernel} {cur child : Nat} {env : ForkEnv} {ret : Option Nat}
    {c cur0 : Proc} (hne : child ≠ cur) (hc : k.deref child = .ok c)
    (hcur : k.deref cur = .ok cur0) (h : forkLink k cur child env = .ok (k1, none, ret)) :
    ret = some c.p_pid ∧ k1.proc_table = k.proc_table ∧
    (∃ c1, k1.deref child = .ok c1 ∧ c1.p_pid = c.p_pid ∧ c1.p_parent = some cur) ∧
    (∃ cur1, k1.deref cur = .ok cur1 ∧ cur1.p_pid = cur0.p_pid ∧
      (env.procarray_add_ok = true → some child ∈ cur1.p_children) ∧
      (env.procarray_add_ok = false → cur1.p_children = cur0.p_children)) := by
  unfold forkLink at h
  rw [hc] at h
  simp only at h
  have hcur1 : (k.store child { c with
        p_addrspace := some env.addrspace
        p_filetable := if env.filetable_copy_sys = 0 then some env.filetable_sys else c.p_filetable
        p_parent := some cur }).deref cur = .ok cur0 :=
    (deref_store_ne _ hne).trans hcur
  have hchild : (k.store child { c with
        p_addrspace := some env.addrspace
        p_filetable := if env.filetable_copy_sys = 0 then some env.filetable_sys else c.p_filetable
        p_parent := some cur }).deref child = .ok { c with
        p_addrspace := some env.addrspace
        p_filetable := if env.filetable_copy_sys = 0 then some env.filetable_sys else c.p_filetable
        p_parent := some cur } :=
    deref_store_self hc
  generalize hk1 : k.store child { c with
        p_addrspace := some env.addrspace
        p_filetable := if env.filetable_copy_sys = 0 then some env.filetable_sys else c.p_filetable
        p_parent := some cur } = ka at h hcur1 hchild
  have htbl : ka.proc_table = k.proc_table := by rw [← hk1]; rfl
  rw [hcur1] at h
  simp only at h
  split at h
  · have := forkFail_error h
    cases this
  · injection h with h
    injection h with h1 h2
    injection h2 with h2 h3
    subst h1
    refine ⟨h3.symm, ?_, ?_, ?_⟩
    · split
      · exact htbl
      · exact htbl
    · split
      · exact ⟨_, (deref_store_ne _ (Ne.symm hne)).trans hchild, rfl, rfl⟩
      · exact ⟨_, hchild, rfl, rfl⟩
    · by_cases ha : env.procarray_add_ok = true
      · rw [if_pos ha]
        refine ⟨_, deref_store_self hcur1, rfl, fun _ => ?_, fun hf => ?_⟩
        · simp [procarray_add]
        · rw [ha] at hf; cases hf
      · rw [if_neg ha]
        exact ⟨cur0, hcur1, rfl, fun ht => absurd ht ha, fun _ => rfl⟩

theorem sys_fork_success {k k1 : Kernel} {cur : Nat} {env : ForkEnv} {ret : Option Nat}
    (w : WF k) (h : sys_fork k cur env = .ok (k1, none, ret)) :
    ∃ (child : Nat) (c rcur rcur1 : Proc),
      ret = some c.p_pid ∧ k.deref cur = .ok rcur ∧
      k.deref child = .error .badPointer ∧
      (∀ q : Nat, k.proc_table[c.p_pid]? ≠ some (some q)) ∧
      k1.deref child = .ok c ∧ k1.proc_table[c.p_pid]? = some (some child) ∧
      0 < c.p_pid ∧ c.p_pid ≠ rcur.p_pid ∧ c.p_parent = some cur ∧
      k1.deref cur = .ok rcur1 ∧ rcur1.p_pid = rcur.p_pid ∧
      (env.procarray_add_ok = true → some child ∈ rcur1.p_children) ∧
      (env.procarray_add_ok = false → rcur1.p_children = rcur.p_children) := by
  unfold sys_fork at h
  cases hd : k.deref cur with
  | error f => rw [hd] at h; cases h
  | ok rcur =>
    rw [hd] at h
    simp only at h
    cases hf : proc_fork k cur env with
    | error f => rw [hf] at h; cases h
    | ok x =>
      obtain ⟨k2, e2, ret2⟩ := x
      rw [hf] at h
      cases ret2 with
      | none =>
        simp only at h
        injection h with h
        injection h with h1 h2
        injection h2 with h2 h3
        cases h2
      | some child =>
        simp only at h
        obtain ⟨rcur', kc, r, r1, hdc, hcreate, hkc, htbl, hk2, hpid, hother⟩ := proc_fork_some hf
        rw [hd] at hdc
        injection hdc with hdc
        subst hdc
        obtain ⟨hchild, hheap, _, _, _, _⟩ := proc_create_effect hcreate
        obtain ⟨r', hr', hslot, hfresh⟩ := proc_create_fresh_slot hcreate
        rw [hkc] at hr'
        injection hr' with hr'
        subst hr'
        have hcurlt : cur < k.heap.length := deref_lt hd
        have hne : child ≠ cur := by rw [hchild]; exact Nat.ne_of_gt hcurlt
        have hknew : k.deref child = .error .badPointer := by
          unfold Kernel.deref
          rw [hchild, List.getElem?_eq_none (Nat.le_refl _)]
        rw [hk2] at h
        simp only at h
        have hcur2 : (k2.store child { r1 with p_name := rcur.p_name ++ "_c" }).deref cur =
            .ok rcur := by
          rw [deref_store_ne _ hne, hother cur hne, deref_append_old hheap hcurlt]
          exact hd
        have hch2 : (k2.store child { r1 with p_name := rcur.p_name ++ "_c" }).deref child =
            .ok { r1 with p_name := rcur.p_name ++ "_c" } := deref_store_self hk2
        split at h
        · cases h
        · next hpos =>
          split at h
          · have := forkFail_error h; cases this
          · split at h
            · have := forkFail_error h; cases this
            · split at h
              · have := forkFail_error h; cases this
              · obtain ⟨hret, htb, ⟨c1, hc1, hc1pid, hc1par⟩, ⟨cur1, hcur1, hcur1pid, hadd, hnoadd⟩⟩ :=
                  forkLink_success hne hch2 hcur2 h
                have hp1 : c1.p_pid = r.p_pid := hc1pid.trans hpid
                refine ⟨child, c1, rcur, cur1, ?_, rfl, hknew, ?_, hc1, ?_, ?_, ?_, hc1par, hcur1,
                  hcur1pid, hadd, hnoadd⟩
                · rw [hret, hc1pid]
                · rw [hp1]; exact hfresh
                · rw [htb, hp1]
                  show k2.proc_table[r.p_pid]? = some (some child)
                  rw [htbl]; exact hslot
                · rw [hc1pid]
                  exact Nat.pos_of_ne_zero hpos
                · rw [hp1]
                  intro e
                  have := w.registered cur rcur hd
                  rw [← e] at this
                  exact hfresh cur this

/-- C11, as stated, fails when `procarray_add` fails: the fork by process 1 returns 0 and pid 2,
the child's parent reference is process 1, and the children array of process 1 is empty. -/
theorem fork_succeeds_without_listing_child :
    Reachable waitEncoding kInit ∧
    sys_fork kInit 1 (forkAddFails 50) = .ok (kForkAddFailed, none, some 2) ∧
    kForkAddFailed.registeredPids = [some 0, some 1, some 2] ∧
    kForkAddFailed.parentOf 2 = some 1 ∧
    kForkAddFailed.childrenOf 1 = [] :=
  ⟨reachable_kInit, rfl, rfl, rfl, rfl⟩

/-- C11, amended.  Whenever `sys_fork` returns 0 in a reachable state, the value returned is the
pid of a child record that did not exist before and now sits in the registry slot of that pid,
a slot that was not occupied; the pid is greater than 0 and differs from the caller's pid; the
child's parent reference is the caller; and when `procarray_add` on the caller's children array
succeeded, the child is a member of that array. -/
theorem fork_links_parent_and_child (MKWAIT_EXIT : Int → Int) (k k1 : Kernel) (cur : Nat)
    (env : ForkEnv) (ret : Option Nat) (hreach : Reachable MKWAIT_EXIT k)
    (h : sys_fork k cur env = .ok (k1, none, ret)) :
    ∃ (child : Nat) (c rcur rcur1 : Proc),
      ret = some c.p_pid ∧ k.deref cur = .ok rcur ∧
      k.deref child = .error .badPointer ∧
      (∀ q : Nat, k.proc_table[c.p_pid]? ≠ some (some q)) ∧
      k1.deref child = .ok c ∧ k1.proc_table[c.p_pid]? = some (some child) ∧
      0 < c.p_pid ∧ c.p_pid ≠ rcur.p_pid ∧ c.p_parent = some cur ∧
      k1.deref cur = .ok rcur1 ∧ rcur1.p_pid = rcur.p_pid ∧
      (env.procarray_add_ok = true → some child ∈ rcur1.p_children) := by
  obtain ⟨child, c, rcur, rcur1, h1, h2, h3, h4, h5, h6, h7, h8, h9, h10, h11, h12, _⟩ :=
    sys_fork_success (WF_reachable hreach) h
  exact ⟨child, c, rcur, rcur1, h1, h2, h3, h4, h5, h6, h7, h8, h9, h10, h11, h12⟩

/-- Witness for the amended C11: process 1 forks, every collaborator succeeding. -/
theorem fork_links_parent_and_child_witness :
    Reachable waitEncoding kInit ∧
    sys_fork kInit 1 (forkOk 50) = .ok (kForked, none, some 2) ∧
    kForked.childrenOf 1 = [some 2] ∧
    ∃ (child : Nat) (c rcur rcur1 : Proc),
      some 2 = some c.p_pid ∧ kInit.deref 1 = .ok rcur ∧
      kInit.deref child = .error .badPointer ∧
      (∀ q : Nat, kInit.proc_table[c.p_pid]? ≠ some (some q)) ∧
      kForked.deref child = .ok c ∧ kForked.proc_table[c.p_pid]? = some (some child) ∧
      0 < c.p_pid ∧ c.p_pid ≠ rcur.p_pid ∧ c.p_parent = some 1 ∧
      kForked.deref 1 = .ok rcur1 ∧ rcur1.p_pid = rcur.p_pid ∧
      ((forkOk 50).procarray_add_ok = true → some child ∈ rcur1.p_children) :=
  ⟨reachable_kInit, rfl, rfl,
   fork_links_parent_and_child waitEncoding kInit kForked 1 (forkOk 50) (some 2)
     reachable_kInit rfl⟩

/-! ## The tally over runs with zombies -/

theorem deref_error {k : Kernel} {p : Nat} {f : Fault} (h : k.deref p = .error f) :
    f = .badPointer := by
  unfold Kernel.deref at h
  split at h
  · cases h
  · injection h with h
    exact h.symm

theorem keepsBelow_refl (n : Nat) (k : Kernel) : k.KeepsBelow n k :=
  ⟨rfl, fun _ _ r h => ⟨r, h⟩⟩

theorem keepsBelow_trans {n : Nat} {a b c : Kernel} (h1 : a.KeepsBelow n b)
    (h2 : b.KeepsBelow n c) : a.KeepsBelow n c := by
  refine ⟨h2.1.trans h1.1, fun q hq r hr => ?_⟩
  obtain ⟨r1, hr1⟩ := h1.2 q hq r hr
  exact h2.2 q hq r1 hr1

theorem keepsBelow_store (n : Nat) {k : Kernel} {p : Nat} {r0 : Proc} (r : Proc)
    (h : k.deref p = .ok r0) : k.KeepsBelow n (k.store p r) := by
  refine ⟨rfl, fun q _ rq hq => ?_⟩
  by_cases e : p = q
  · subst e
    exact ⟨r, deref_store_self h⟩
  · exact ⟨rq, (deref_store_ne r e).trans hq⟩

theorem keepsBelow_shrunk (n : Nat) {k km : Kernel} (hs : k.Shrunk km) : k.KeepsBelow n km := by
  refine ⟨hs.2.1, fun q _ r hr => ?_⟩
  obtain ⟨r1, h1, _⟩ := shrunk_deref hs hr
  exact ⟨r1, h1⟩

theorem proc_destroy_frame {k k1 : Kernel} {p : Nat} (h : proc_destroy k (some p) = .ok k1) :
    k1.kproc = k.kproc ∧ 0 < k.num_processes ∧ k1.num_processes + 1 = k.num_processes ∧
    ∀ (q : Nat) (r : Proc), q ≠ p → k.deref q = .ok r → ∃ r1 : Proc, k1.deref q = .ok r1 := by
  obtain ⟨r, km, par, _, hd, hs, _, hk1, hpos, hnum, hcase⟩ := proc_destroy_effect h
  refine ⟨hk1, hpos, by omega, fun q rq hq hrq => ?_⟩
  obtain ⟨r1, h1, _⟩ := shrunk_deref hs hrq
  rcases hcase with ⟨_, hheap, _⟩ | ⟨_, _, _, hheap⟩
  · refine ⟨r1, ?_⟩
    unfold Kernel.deref at h1 ⊢
    rw [hheap]
    exact h1
  · refine ⟨r1, ?_⟩
    unfold Kernel.deref at h1 ⊢
    rw [hheap, List.getElem?_set_ne (Ne.symm hq)]
    exact h1

theorem proc_destroy_keepsBelow {n : Nat} {k k1 : Kernel} {p : Nat} (hn : n ≤ p)
    (h : proc_destroy k (some p) = .ok k1) : k.KeepsBelow n k1 := by
  obtain ⟨hk, _, _, hq⟩ := proc_destroy_frame h
  exact ⟨hk, fun q hlt r hr => hq q r (by omega) hr⟩

theorem proc_create_tally {k k1 : Kernel} {name : String} {env : CreateEnv} {p : Nat}
    (w : WF k) (h : proc_create k name env = .ok (k1, some p)) :
    p = k.heap.length ∧ k1.num_processes = k.num_processes + 1 ∧
    (∃ r : Proc, k1.deref p = .ok r) ∧ ∀ n : Nat, k.KeepsBelow n k1 := by
  obtain ⟨hp, hheap, _, hkp, hnum, _⟩ := proc_create_effect h
  subst hp
  obtain ⟨kp, rk, h1, h2, h3⟩ := w.kernel
  have hreg := w.registered kp rk h2
  rw [h3] at hreg
  have hidx : (procarray_setFirstAvail k.proc_table (some k.heap.length)).2 ≠ 0 := by
    intro e
    rcases setFirstAvail_free k.proc_table (some k.heap.length) with hf | hf <;>
      rw [e, hreg] at hf <;> cases hf
  refine ⟨rfl, ?_, ⟨_, deref_append_new hheap⟩, fun n => ⟨hkp, fun q _ r hr => ?_⟩⟩
  · rw [hnum, if_pos hidx]
  · exact ⟨r, (deref_append_old hheap (deref_lt hr)).trans hr⟩

theorem deref_at_length (k : Kernel) : k.deref k.heap.length = .error .badPointer := by
  unfold Kernel.deref
  rw [List.getElem?_eq_none (Nat.le_refl _)]

theorem proc_create_runprogram_frame {k k1 : Kernel} {cur : Nat} {name : String}
    {env : CreateEnv} {ret : Option Ptr} (w : WF k)
    (h : proc_create_runprogram k cur name env = .ok (k1, ret)) :
    (ret = none → k1 = k) ∧
    (∀ p : Nat, ret = some p → p = k.heap.length ∧ k1.num_processes = k.num_processes + 1 ∧
      (∃ r : Proc, k1.deref p = .ok r) ∧ k.KeepsBelow k.heap.length k1) := by
  unfold proc_create_runprogram at h
  cases hc : proc_create k name env with
  | error f => rw [hc] at h; cases h
  | ok x =>
    obtain ⟨k2, ret2⟩ := x
    rw [hc] at h
    cases ret2 with
    | none =>
      simp only at h
      injection h with h
      injection h with h1 h2
      subst h1 h2
      exact ⟨fun _ => proc_create_none hc, (fun p hp => by cases hp)⟩
    | some q =>
      simp only at h
      obtain ⟨hq, hnum, _, hkeep⟩ := proc_create_tally w hc
      cases hd : k2.deref q with
      | error f => rw [hd] at h; simp at h
      | ok r =>
        cases hd2 : k2.deref cur with
        | error f => rw [hd, hd2] at h; simp at h
        | ok rc =>
          rw [hd, hd2] at h
          simp only at h
          injection h with h
          injection h with h1 h2
          subst h1 h2
          refine ⟨(fun hn => by cases hn), fun p hp => ?_⟩
          injection hp with hp
          subst hp
          exact ⟨hq, hnum, ⟨_, deref_store_self hd⟩,
            keepsBelow_trans (hkeep _) (keepsBelow_store _ _ hd)⟩

theorem proc_setas_frame {k k1 : Kernel} {cur : Nat} {newas old : Option Nat}
    (h : proc_setas k cur newas = .ok (k1, old)) :
    k1.num_processes = k.num_processes ∧ ∀ n : Nat, k.KeepsBelow n k1 := by
  unfold proc_setas at h
  cases hd : k.deref cur with
  | error f => rw [hd] at h; cases h
  | ok r =>
    rw [hd] at h
    simp only at h
    injection h with h
    injection h with h1 h2
    subst h1
    exact ⟨rfl, fun n => keepsBelow_store n _ hd⟩

theorem proc_fork_frame {k k1 : Kernel} {cur : Nat} {env : ForkEnv} {e : Option Errno}
    {ret : Option Ptr} (w : WF k) (h : proc_fork k cur env = .ok (k1, e, ret)) :
    k.KeepsBelow k.heap.length k1 ∧
    (ret = none → k1.num_processes = k.num_processes) ∧
    (∀ child : Nat, ret = some child →
      child = k.heap.length ∧ k1.num_processes = k.num_processes + 1) := by
  unfold proc_fork at h
  cases hd : k.deref cur with
  | error f => rw [hd] at h; cases h
  | ok rcur =>
    rw [hd] at h
    simp only at h
    cases hc : proc_create k rcur.p_name env.create with
    | error f => rw [hc] at h; cases h
    | ok x =>
      obtain ⟨k2, ret2⟩ := x
      rw [hc] at h
      cases ret2 with
      | none =>
        simp only at h
        injection h with h
        injection h with h1 h2
        injection h2 with h2 h3
        subst h1 h3
        rw [proc_create_none hc]
        exact ⟨keepsBelow_refl _ _, fun _ => rfl, (fun c hc' => by cases hc')⟩
      | some q =>
        simp only at h
        obtain ⟨hq, hnum, _, hkeep⟩ := proc_create_tally w hc
        cases hd2 : k2.deref q with
        | error f => rw [hd2] at h; cases h
        | ok r =>
          rw [hd2] at h
          simp only at h
          split at h
          · cases hx : proc_destroy (k2.store q { r with p_addrspace := none }) (some q) with
            | error f => rw [hx] at h; cases h
            | ok k3 =>
              rw [hx] at h
              simp only at h
              injection h with h
              injection h with h1 h2
              injection h2 with h2 h3
              subst h1 h3
              obtain ⟨_, _, hn3, _⟩ := proc_destroy_frame hx
              have hle : k.heap.length ≤ q := by rw [hq]
              refine ⟨keepsBelow_trans (hkeep _)
                  (keepsBelow_trans (keepsBelow_store _ _ hd2) (proc_destroy_keepsBelow hle hx)),
                fun _ => ?_, (fun c hc' => by cases hc')⟩
              have : (k2.store q { r with p_addrspace := none }).num_processes
                  = k2.num_processes := rfl
              omega
          · injection h with h
            injection h with h1 h2
            injection h2 with h2 h3
            subst h1 h3
            refine ⟨keepsBelow_trans (hkeep _) (keepsBelow_store _ _ hd2),
              (fun hn => by cases hn), fun c hc' => ?_⟩
            injection hc' with hc'
            subst hc'
            exact ⟨hq, hnum⟩

theorem forkFail_frame {n : Nat} {k k1 : Kernel} {child : Nat} {e : Errno}
    {e1 : Option Errno} {ret : Option Nat} (hn : n ≤ child)
    (h : forkFail k child e = .ok (k1, e1, ret)) :
    k.KeepsBelow n k1 ∧ k1.num_processes + 1 = k.num_processes := by
  unfold forkFail at h
  cases hx : proc_destroy k (some child) with
  | error f => rw [hx] at h; cases h
  | ok k3 =>
    rw [hx] at h
    simp only at h
    injection h with h
    injection h with h1 h2
    subst h1
    exact ⟨proc_destroy_keepsBelow hn hx, (proc_destroy_frame hx).2.2.1⟩

theorem forkLink_frame {n : Nat} {k k1 : Kernel} {cur child : Nat} {env : ForkEnv}
    {e1 : Option Errno} {ret : Option Nat} (hn : n ≤ child)
    (h : forkLink k cur child env = .ok (k1, e1, ret)) :
    k.KeepsBelow n k1 ∧ (e1 = none → k1.num_processes = k.num_processes) ∧
    (∀ e : Errno, e1 = some e → k1.num_processes + 1 = k.num_processes) := by
  unfold forkLink at h
  cases hd : k.deref child with
  | error f => rw [hd] at h; cases h
  | ok c =>
    rw [hd] at h
    simp only at h
    have hka : k.KeepsBelow n (k.store child { c with
        p_addrspace := some env.addrspace
        p_filetable := if env.filetable_copy_sys = 0 then some env.filetable_sys else c.p_filetable
        p_parent := some cur }) := keepsBelow_store n _ hd
    have hna : (k.store child { c with
        p_addrspace := some env.addrspace
        p_filetable := if env.filetable_copy_sys = 0 then some env.filetable_sys else c.p_filetable
        p_parent := some cur }).num_processes = k.num_processes := rfl
    generalize hk1 : k.store child { c with
        p_addrspace := some env.addrspace
        p_filetable := if env.filetable_copy_sys = 0 then some env.filetable_sys else c.p_filetable
        p_parent := some cur } = ka at h hka hna
    cases hd1 : ka.deref cur with
    | error f => rw [hd1] at h; cases h
    | ok cur1 =>
      rw [hd1] at h
      simp only at h
      have hkb : ka.KeepsBelow n (if env.procarray_add_ok = true then
          ka.store cur { cur1 with p_children := (procarray_add cur1.p_children (some child)).1 }
          else ka) := by
        split
        · exact keepsBelow_store n _ hd1
        · exact keepsBelow_refl _ _
      have hnb : (if env.procarray_add_ok = true then
          ka.store cur { cur1 with p_children := (procarray_add cur1.p_children (some child)).1 }
          else ka).num_processes = ka.num_processes := by
        split <;> rfl
      generalize hk2 : (if env.procarray_add_ok = true then
          ka.store cur { cur1 with p_children := (procarray_add cur1.p_children (some child)).1 }
          else ka) = kb at h hkb hnb
      split at h
      · obtain ⟨hkf, hnf⟩ := forkFail_frame hn h
        have herr := forkFail_error h
        refine ⟨keepsBelow_trans hka (keepsBelow_trans hkb hkf), fun hnone => ?_, fun _ _ => ?_⟩
        · rw [hnone] at herr; cases herr
        · omega
      · injection h with h
        injection h with h1 h2
        injection h2 with h2 h3
        subst h1 h2
        refine ⟨keepsBelow_trans hka hkb, fun _ => ?_, (fun e he => by cases he)⟩
        omega

theorem sys_fork_frame {k k1 : Kernel} {cur : Nat} {env : ForkEnv} {err : Option Errno}
    {ret : Option Nat} (w : WF k) (h : sys_fork k cur env = .ok (k1, err, ret)) :
    k.KeepsBelow k.heap.length k1 ∧
    (err = none → k1.num_processes = k.num_processes + 1) ∧
    (∀ e : Errno, err = some e → k1.num_processes = k.num_processes) := by
  unfold sys_fork at h
  cases hd : k.deref cur with
  | error f => rw [hd] at h; cases h
  | ok rcur =>
    rw [hd] at h
    simp only at h
    cases hf : proc_fork k cur env with
    | error f => rw [hf] at h; cases h
    | ok x =>
      obtain ⟨k2, e2, ret2⟩ := x
      rw [hf] at h
      obtain ⟨hkeep, hnone, hsome⟩ := proc_fork_frame w hf
      cases ret2 with
      | none =>
        simp only at h
        injection h with h
        injection h with h1 h2
        injection h2 with h2 h3
        subst h1 h2
        exact ⟨hkeep, (fun hn => by cases hn), fun _ _ => hnone rfl⟩
      | some child =>
        simp only at h
        obtain ⟨hchild, hnum⟩ := hsome child rfl
        have hle : k.heap.length ≤ child := by rw [hchild]
        cases hd2 : k2.deref child with
        | error f => rw [hd2] at h; cases h
        | ok c =>
          rw [hd2] at h
          simp only at h
          have hk3 : k2.KeepsBelow k.heap.length
              (k2.store child { c with p_name := rcur.p_name ++ "_c" }) :=
            keepsBelow_store _ _ hd2
          have hn3 : (k2.store child { c with p_name := rcur.p_name ++ "_c" }).num_processes
              = k2.num_processes := rfl
          have hfail : ∀ (e : Errno) (e1 : Option Errno),
              forkFail (k2.store child { c with p_name := rcur.p_name ++ "_c" }) child e
                = .ok (k1, e1, ret) → e1 = err →
              k.KeepsBelow k.heap.length k1 ∧
              (err = none → k1.num_processes = k.num_processes + 1) ∧
              (∀ e : Errno, err = some e → k1.num_processes = k.num_processes) := by
            intro e e1 hff he
            obtain ⟨hkf, hnf⟩ := forkFail_frame hle hff
            have herr := forkFail_error hff
            refine ⟨keepsBelow_trans hkeep (keepsBelow_trans hk3 hkf), fun hn => ?_,
              fun _ _ => ?_⟩
            · rw [← he, herr] at hn; cases hn
            · omega
          split at h
          · cases h
          · split at h
            · exact hfail _ _ h rfl
            · split at h
              · exact hfail _ _ h rfl
              · split at h
                · exact hfail _ _ h rfl
                · obtain ⟨hkl, hl1, hl2⟩ := forkLink_frame hle h
                  refine ⟨keepsBelow_trans hkeep (keepsBelow_trans hk3 hkl), fun hn => ?_,
                    fun e he => ?_⟩
                  · have := hl1 hn
                    omega
                  · have := hl2 e he
                    omega

theorem sys__exit_frame {MK : Int → Int} {k k1 : Kernel} {cur : Nat} {c : Int}
    (h : sys__exit MK k cur c = .ok k1) :
    k1.kproc = k.kproc ∧ k1.num_processes + 1 = k.num_processes ∧
    ∀ (q : Nat) (r : Proc), q ≠ cur → k.deref q = .ok r → ∃ r1 : Proc, k1.deref q = .ok r1 := by
  unfold sys__exit at h
  cases hd : k.deref cur with
  | error f => rw [hd] at h; cases h
  | ok r =>
    rw [hd] at h
    simp only at h
    split at h
    · cases h
    · obtain ⟨hk, _, hn, hq⟩ := proc_destroy_frame h
      refine ⟨hk, hn, fun q rq hne hrq => ?_⟩
      exact hq q rq hne ((deref_store_ne _ (Ne.symm hne)).trans hrq)

theorem detachChildren_error (l : ProcArray) :
    ∀ {k : Kernel} {f : Fault}, detachChildren l k = .error f → f ≠ .assertNumProcesses := by
  induction l with
  | nil => intro k f h; simp [detachChildren] at h
  | cons a rest ih =>
    intro k f h
    cases a with
    | none =>
      simp only [detachChildren] at h
      injection h with h
      rw [← h]
      intro e
      cases e
    | some t =>
      simp only [detachChildren] at h
      cases hd : k.deref t with
      | error g =>
        rw [hd] at h
        simp only at h
        injection h with h
        rw [← h, deref_error hd]
        intro e
        cases e
      | ok r =>
        rw [hd] at h
        exact ih h

theorem findSelfIndex_error (k : Kernel) (pid : Nat) :
    ∀ (n i : Nat) {f : Fault}, findSelfIndex k pid n i = .error f → f ≠ .assertNumProcesses := by
  intro n
  induction n with
  | zero => intro i f h; simp [findSelfIndex] at h
  | succ n ih =>
    intro i f h
    simp only [findSelfIndex] at h
    unfold procarray_get at h
    cases hg : k.proc_table[i]? with
    | none =>
      rw [hg] at h
      simp only at h
      injection h with h
      rw [← h]
      intro e
      cases e
    | some v =>
      rw [hg] at h
      simp only at h
      cases v with
      | none =>
        simp only at h
        injection h with h
        rw [← h]
        intro e
        cases e
      | some c =>
        simp only at h
        cases hd : k.deref c with
        | error g =>
          rw [hd] at h
          simp only at h
          injection h with h
          rw [← h, deref_error hd]
          intro e
          cases e
        | ok r =>
          rw [hd] at h
          simp only at h
          split at h
          · cases h
          · exact ih _ h

theorem detachFromParent_error {k : Kernel} {pid pp : Nat} {f : Fault}
    (h : detachFromParent k pid pp = .error f) : f ≠ .assertNumProcesses := by
  unfold detachFromParent at h
  cases hd : k.deref pp with
  | error g =>
    rw [hd] at h
    simp only at h
    injection h with h
    rw [← h, deref_error hd]
    intro e
    cases e
  | ok pr =>
    rw [hd] at h
    simp only at h
    cases hf : findSelfIndex k pid (procarray_num pr.p_children) 0 with
    | error g =>
      rw [hf] at h
      simp only at h
      injection h with h
      rw [← h]
      exact findSelfIndex_error k pid _ _ hf
    | ok found =>
      rw [hf] at h
      cases found with
      | none => simp only at h; cases h
      | some i =>
        simp only at h
        unfold procarray_remove at h
        by_cases hi : i < pr.p_children.length
        · simp only [hi, if_true] at h
          cases h
        · simp only [hi, if_false] at h
          injection h with h
          rw [← h]
          intro e
          cases e

/-- The assertion `num_processes > 0` of `proc_destroy` fails only when the tally is zero. -/
theorem proc_destroy_assert_tally {k : Kernel} {proc : Option Ptr}
    (h : proc_destroy k proc = .error .assertNumProcesses) : k.num_processes = 0 := by
  cases proc with
  | none => simp [proc_destroy] at h
  | some p =>
    unfold proc_destroy at h
    simp only at h
    by_cases hk : some p = k.kproc
    · simp [hk] at h
    · simp only [hk, if_false] at h
      cases hd : k.deref p with
      | error f =>
        rw [hd] at h
        simp only at h
        injection h with h
        rw [deref_error hd] at h
        cases h
      | ok r =>
        rw [hd] at h
        simp only at h
        have hs1 : k.Shrunk
            (k.store p { r with p_cwd := none, p_filetable := none, p_addrspace := none }) :=
          store_shrunk hd ⟨rfl, rfl, rfl, rfl, Or.inl rfl, List.Sublist.refl _⟩
        cases hc : detachChildren r.p_children
            (k.store p { r with p_cwd := none, p_filetable := none, p_addrspace := none }) with
        | error f =>
          rw [hc] at h
          simp only at h
          injection h with h
          exact absurd h (detachChildren_error _ hc)
        | ok k2 =>
          rw [hc] at h
          simp only at h
          have hs2 := kernel_shrunk_trans hs1 (detachChildren_shrunk _ hc)
          cases hd2 : k2.deref p with
          | error f =>
            rw [hd2] at h
            simp only at h
            injection h with h
            rw [deref_error hd2] at h
            cases h
          | ok r2 =>
            rw [hd2] at h
            simp only at h
            cases hp : r2.p_parent with
            | some pp =>
              rw [hp] at h
              simp only at h
              cases h3 : detachFromParent k2 r2.p_pid pp with
              | error f =>
                rw [h3] at h
                simp only at h
                injection h with h
                exact absurd h (detachFromParent_error h3)
              | ok k3 =>
                rw [h3] at h
                simp only at h
                have hs3 := kernel_shrunk_trans hs2 (detachFromParent_shrunk h3)
                unfold decrementTally at h
                by_cases h0 : k3.num_processes = 0
                · rw [← hs3.2.2.1]; exact h0
                · simp only [h0, if_false] at h
                  cases h
            | none =>
              rw [hp] at h
              simp only at h
              unfold procarray_set at h
              by_cases hlt : r2.p_pid < k2.proc_table.length
              · simp only [hlt, if_true] at h
                unfold decrementTally at h
                by_cases h0 : k2.num_processes = 0
                · rw [← hs2.2.2.1]; exact h0
                · have h0' : ({ k2 with proc_table := k2.proc_table.set r2.p_pid none }.kfree
                      p).num_processes ≠ 0 := h0
                  simp only [h0', if_false] at h
                  cases h
              · simp only [hlt, if_false] at h
                injection h with h
                cases h

theorem liveInv_keep {k k1 : Kernel} {live : List Nat} (inv : LiveInv k live) (w1 : WF k1)
    (hk : k.KeepsBelow k.heap.length k1) (hn : k1.num_processes = k.num_processes) :
    LiveInv k1 live := by
  refine ⟨w1, hn.trans inv.tally, inv.nodup, fun p hp => ?_⟩
  obtain ⟨⟨r, hr⟩, hne⟩ := inv.exist p hp
  refine ⟨hk.2 p (deref_lt hr) r hr, ?_⟩
  rw [hk.1]
  exact hne

theorem liveInv_add {k k1 : Kernel} {live : List Nat} {p : Nat} (inv : LiveInv k live)
    (w1 : WF k1) (hk : k.KeepsBelow k.heap.length k1)
    (hn : k1.num_processes = k.num_processes + 1) (hnew : k.deref p = .error .badPointer)
    (hp1 : ∃ r : Proc, k1.deref p = .ok r) : LiveInv k1 (p :: live) := by
  have hnot : p ∉ live := by
    intro hm
    obtain ⟨⟨r, hr⟩, _⟩ := inv.exist p hm
    rw [hnew] at hr
    cases hr
  refine ⟨w1, ?_, List.nodup_cons.mpr ⟨hnot, inv.nodup⟩, fun q hq => ?_⟩
  · rw [hn, inv.tally, List.length_cons]
  · rcases List.mem_cons.mp hq with e | hq
    · subst e
      refine ⟨hp1, ?_⟩
      rw [hk.1]
      obtain ⟨kp, rk, h1, h2, _⟩ := inv.wf.kernel
      rw [h1]
      intro e
      injection e with e
      subst e
      rw [hnew] at h2
      cases h2
    · obtain ⟨⟨r, hr⟩, hne⟩ := inv.exist q hq
      refine ⟨hk.2 q (deref_lt hr) r hr, ?_⟩
      rw [hk.1]
      exact hne

theorem liveInv_erase {k k1 : Kernel} {live : List Nat} {p : Nat} (inv : LiveInv k live)
    (w1 : WF k1) (hp : p ∈ live) (hkp : k1.kproc = k.kproc)
    (hn : k1.num_processes + 1 = k.num_processes)
    (hq : ∀ (q : Nat) (r : Proc), q ≠ p → k.deref q = .ok r → ∃ r1 : Proc, k1.deref q = .ok r1) :
    LiveInv k1 (live.erase p) := by
  refine ⟨w1, ?_, inv.nodup.erase p, fun q hm => ?_⟩
  · have h1 := List.length_erase_of_mem hp
    have h2 := inv.tally
    have h3 := List.length_pos_of_mem hp
    omega
  · obtain ⟨hne, hmem⟩ := (List.Nodup.mem_erase_iff inv.nodup).mp hm
    obtain ⟨⟨r, hr⟩, hk⟩ := inv.exist q hmem
    refine ⟨hq q r hne hr, ?_⟩
    rw [hkp]
    exact hk

theorem liveInv_step {MK : Int → Int} {k k1 : Kernel} {live live1 : List Nat}
    (inv : LiveInv k live) (h : LiveStep MK k live k1 live1) : LiveInv k1 live1 := by
  cases h with
  | create name env p h =>
    obtain ⟨hp, hn, hex, hkeep⟩ := proc_create_tally inv.wf h
    refine liveInv_add inv (WF_proc_create inv.wf h) (hkeep _) hn ?_ hex
    rw [hp]
    exact deref_at_length k
  | create_fails name env h =>
    rw [proc_create_none h]
    exact inv
  | create_runprogram cur name env p h =>
    obtain ⟨hp, hn, hex, hkeep⟩ := (proc_create_runprogram_frame inv.wf h).2 p rfl
    refine liveInv_add inv (WF_proc_create_runprogram inv.wf h) hkeep hn ?_ hex
    rw [hp]
    exact deref_at_length k
  | create_runprogram_fails cur name env h =>
    rw [(proc_create_runprogram_frame inv.wf h).1 rfl]
    exact inv
  | setas cur newas old h =>
    obtain ⟨hn, hkeep⟩ := proc_setas_frame h
    exact liveInv_keep inv (WF_proc_setas inv.wf h) (hkeep _) hn
  | destroy p hp h =>
    obtain ⟨hk, _, hn, hq⟩ := proc_destroy_frame h
    exact liveInv_erase inv (WF_proc_destroy inv.wf h) hp hk hn hq
  | fork cur env pid child h hslot =>
    obtain ⟨hkeep, hn, _⟩ := sys_fork_frame inv.wf h
    obtain ⟨child0, c, _, _, hret, _, hnew, _, hc, hreg, _⟩ := sys_fork_success inv.wf h
    injection hret with hret
    rw [← hret, hslot] at hreg
    injection hreg with hreg
    injection hreg with hreg
    subst hreg
    exact liveInv_add inv (WF_sys_fork inv.wf h) hkeep (hn rfl) hnew ⟨c, hc⟩
  | fork_fails cur env e ret h =>
    obtain ⟨hkeep, _, hn⟩ := sys_fork_frame inv.wf h
    exact liveInv_keep inv (WF_sys_fork inv.wf h) hkeep (hn e rfl)
  | exit cur c hp h =>
    obtain ⟨hk, hn, hq⟩ := sys__exit_frame h
    exact liveInv_erase inv (WF_sys__exit inv.wf h) hp hk hn hq
  | waitpid cur pid options copyout out h =>
    rw [sys_waitpid_state h]
    exact inv

theorem liveInv_reachable {MK : Int → Int} {k : Kernel} {live : List Nat}
    (h : ReachableLive MK k live) : LiveInv k live := by
  induction h with
  | boot env h =>
    rw [proc_bootstrap_state h]
    exact ⟨WF_kBoot, rfl, List.nodup_nil, fun p hp => by cases hp⟩
  | step _ hs ih => exact liveInv_step ih hs

theorem liveStep_step {MK : Int → Int} {k k1 : Kernel} {live live1 : List Nat}
    (h : LiveStep MK k live k1 live1) : Step MK k k1 := by
  cases h with
  | create name env p h => exact Step.create name env (some p) h
  | create_fails name env h => exact Step.create name env none h
  | create_runprogram cur name env p h => exact Step.create_runprogram cur name env (some p) h
  | create_runprogram_fails cur name env h => exact Step.create_runprogram cur name env none h
  | setas cur newas old h => exact Step.setas cur newas old h
  | destroy p _ h => exact Step.destroy (some p) h
  | fork cur env pid child h _ => exact Step.fork cur env none (some pid) h
  | fork_fails cur env e ret h => exact Step.fork cur env (some e) ret h
  | exit cur c _ h => exact Step.exit cur c h
  | waitpid cur pid options copyout out h => exact Step.waitpid cur pid options copyout out h

theorem reachableLive_reachable {MK : Int → Int} {k : Kernel} {live : List Nat}
    (h : ReachableLive MK k live) : Reachable MK k := by
  induction h with
  | boot env h => exact Reachable.boot env h
  | step _ hs ih => exact Reachable.step ih (liveStep_step hs)

theorem reachableLive_kChildExited : ReachableLive waitEncoding kChildExited [1] :=
  ReachableLive.step
    (ReachableLive.step
      (ReachableLive.step
        (ReachableLive.step (ReachableLive.boot bootOk rfl)
          (LiveStep.create_runprogram 0 "init" createOk 1 rfl))
        (LiveStep.setas 1 (some 40) none rfl))
      (LiveStep.fork 1 (forkOk 50) 2 2 rfl rfl))
    (LiveStep.exit 2 7 (List.mem_cons_self 2 [1]) rfl)

/-- C8, as stated, fails once a zombie exists: after child 2 of process 1 has called `_exit(7)`
its record is still registered, so two records other than the kernel process exist, and the
tally is 1. -/
theorem tally_excludes_zombie :
    Reachable waitEncoding kChildExited ∧
    kChildExited.registeredPids = [some 0, some 1, some 2] ∧
    kChildExited.userRecords = [1, 2] ∧
    kChildExited.num_processes = 1 :=
  ⟨reachable_kChildExited, rfl, rfl, rfl⟩

/-- C8, amended.  In every state reached from `proc_bootstrap`, zombies included, the tally
`num_processes` is the number of records other than the kernel process that have been created
and not yet passed to `proc_destroy`; it is zero exactly when there is none.  Those records are
distinct and exist; the kernel process exists with pid 0 and is not among them; and
`proc_destroy` of one of them never fails the assertion `num_processes > 0`. -/
theorem tally_counts_live_records (MKWAIT_EXIT : Int → Int) (k : Kernel) (live : List Nat)
    (h : ReachableLive MKWAIT_EXIT k live) :
    k.num_processes = live.length ∧
    (k.num_processes = 0 ↔ live = []) ∧
    live.Nodup ∧
    (∀ p ∈ live, p ∈ k.userRecords) ∧
    (∃ (kp : Nat) (r : Proc), k.kproc = some kp ∧ k.deref kp = .ok r ∧ r.p_pid = 0 ∧
      kp ∉ live) ∧
    (∀ p ∈ live, proc_destroy k (some p) ≠ .error .assertNumProcesses) := by
  have inv := liveInv_reachable h
  refine ⟨inv.tally, ?_, inv.nodup, fun p hp => ?_, ?_, fun p hp he => ?_⟩
  · rw [inv.tally]
    exact List.length_eq_zero
  · exact mem_userRecords.mpr (inv.exist p hp)
  · obtain ⟨kp, rk, h1, h2, h3⟩ := inv.wf.kernel
    exact ⟨kp, rk, h1, h2, h3, fun hm => (inv.exist kp hm).2 h1.symm⟩
  · have h0 := proc_destroy_assert_tally he
    have h1 := inv.tally
    have h2 := List.length_pos_of_mem hp
    omega

/-- Witness for the amended C8: with the zombie of pid 2 registered, the one record not yet
destroyed is process 1, and the tally is 1. -/
theorem tally_counts_live_records_witness :
    ReachableLive waitEncoding kChildExited [1] ∧
    kChildExited.userRecords = [1, 2] ∧
    kChildExited.num_processes = [1].length :=
  ⟨reachableLive_kChildExited, rfl,
   (tally_counts_live_records waitEncoding kChildExited [1] reachableLive_kChildExited).1⟩

end OS161
